import Mathlib

/-!
Verification of the jobcan extension core (session management, cookie merging,
attendance parsing, clock-field discovery and the clock executor) against its
natural-language specification.

The TypeScript sources are shallowly embedded: pure functions become Lean
functions, stateful code is explicit state passing over a `Store`, network
calls are oracles plus an explicit effect trace.  The HTML/DOM library
(node-html-parser) is an external collaborator of the project, so parsed
documents are represented by abstract structures holding exactly the data the
code reads from them (selector results, attribute values, label texts).
-/

namespace Jobcan

/-! ### JavaScript string primitives

The source manipulates JS strings; these helpers model the exact JS
semantics used: `trim`, `includes`, `toLowerCase` (ASCII), `split` with a
string separator, truthiness of strings (empty string is falsy), and
`parseInt(s, 10)`. -/

/-- Truthiness of a JS string: falsy iff empty. -/
def strTruthy (s : String) : Bool := s ≠ ""

/-- Truthiness of an optional JS string (`undefined`/`null` and `""` are falsy). -/
def optTruthy : Option String → Bool
  | none => false
  | some s => strTruthy s

/-- JS `a || b` for an optional string `a` with string default `b`. -/
def jsOr (a : Option String) (b : String) : String :=
  match a with
  | none => b
  | some s => if s = "" then b else s

/-- JS `s.trim()` on the character list. -/
def trimChars (l : List Char) : List Char :=
  ((l.dropWhile Char.isWhitespace).reverse.dropWhile Char.isWhitespace).reverse

/-- JS `s.trim()`. -/
def trimJS (s : String) : String := ⟨trimChars s.data⟩

/-- JS `s.toLowerCase()` (ASCII case folding, which covers the field names
and labels the code inspects). -/
def lowerJS (s : String) : String := ⟨s.data.map Char.toLower⟩

/-- Substring test on character lists (used to model JS `includes`). -/
def containsSub (hay sub : List Char) : Bool :=
  match hay with
  | [] => sub.isEmpty
  | _ :: t => sub.isPrefixOf hay || containsSub t sub

/-- JS `hay.includes(sub)`. -/
def jsIncludes (hay sub : String) : Bool := containsSub hay.data sub.data

/-- JS `s.split(ch)` for a single-character separator. -/
def splitChar (ch : Char) : List Char → List (List Char)
  | [] => [[]]
  | c :: cs =>
    match splitChar ch cs with
    | [] => [[c]]
    | p :: ps => if c = ch then [] :: p :: ps else (c :: p) :: ps

/-- Auxiliary for `splitSeq`: `acc` is the current piece, reversed.  The
fuel argument (any upper bound on the input length; every step consumes at
least one character) keeps the recursion structural, so that concrete
inputs evaluate by definitional reduction. -/
def splitSeqAux (sep : List Char) : Nat → List Char → List Char → List (List Char)
  | _, [], acc => [acc.reverse]
  | 0, l, acc => [acc.reverse ++ l]
  | fuel + 1, c :: cs, acc =>
    if sep.isPrefixOf (c :: cs) ∧ sep ≠ [] then
      acc.reverse :: splitSeqAux sep fuel ((c :: cs).drop sep.length) []
    else
      splitSeqAux sep fuel cs (c :: acc)

/-- JS `s.split(sep)` for a multi-character separator (non-overlapping,
left to right). -/
def splitSeq (sep : List Char) (l : List Char) : List (List Char) :=
  splitSeqAux sep l.length l []

/-- JS `s.split(sep)` on strings. -/
def splitStr (sep : String) (s : String) : List String :=
  (splitSeq sep.data s.data).map (fun l => ⟨l⟩)

/-- Decimal digit test (ASCII). -/
def isDigitChar (c : Char) : Bool := '0' ≤ c ∧ c ≤ '9'

/-- Value of a decimal digit character. -/
def digitVal (c : Char) : Nat := c.toNat - '0'.toNat

/-- Value of a digit string (most significant first). -/
def digitsVal (l : List Char) : Nat :=
  l.foldl (fun a c => 10 * a + digitVal c) 0

/-- JS `parseInt(s, 10)`: skip leading whitespace, optional sign, then a
non-empty run of decimal digits (further characters ignored); `none` models
`NaN`. -/
def jsParseInt (s : String) : Option Int :=
  let l := s.data.dropWhile Char.isWhitespace
  let (neg, l) : Bool × List Char :=
    match l with
    | '-' :: rest => (true, rest)
    | '+' :: rest => (false, rest)
    | _ => (false, l)
  let digits := l.takeWhile isDigitChar
  if digits = [] then none
  else
    let v : Int := Int.ofNat (digitsVal digits)
    some (if neg then -v else v)

/-- JS `String(n).padStart(2, "0")` for a natural number. -/
def pad2 (n : Nat) : String :=
  let s := Nat.repr n
  if s.length < 2 then ⟨List.replicate (2 - s.length) '0'⟩ ++ s else s

/-! ### `src/lib/types.ts` — attendance data model

Direct embedding of `AttendanceEntryRaw`, `AttendanceStatus`,
`AttendanceEntry` and `transformAttendanceEntry`.  Optional string fields of
the raw entry are `Option String`; JS truthiness (`undefined` and `""` are
falsy) is `optTruthy`. -/

structure AttendanceEntryRaw where
  date : String
  dayOfWeek : String
  holidayType : Option String := none
  shiftTime : Option String := none
  clockIn : Option String := none
  clockOut : Option String := none
  workingHours : Option String := none
  offShiftWorkingHours : Option String := none
  overtime : Option String := none
  nightShift : Option String := none
  -- the source field is `break` (a Lean keyword); the row parser's local
  -- name for the same datum is `breakTime`
  breakTime : Option String := none
  status : List String
  statusTooltip : Option String := none
  isPending : Bool := false
  deriving DecidableEq, Repr

inductive AttendanceStatus where
  | pending
  | logged
  | holidayWork
  | absence
  | late
  | paidVacation
  | substitutionHoliday
  | holiday
  | unlogged
  deriving DecidableEq, Repr

structure AttendanceEntry where
  date : String
  dayOfWeek : String
  holidayType : Option String
  shiftTime : Option String
  clockIn : Option String
  clockOut : Option String
  workingHours : Option String
  offShiftWorkingHours : Option String
  overtime : Option String
  nightShift : Option String
  breakTime : Option String
  status : AttendanceStatus
  rawStatus : List String
  statusTooltip : Option String
  isLogged : Bool
  isHoliday : Bool
  deriving DecidableEq, Repr

/-- `transformAttendanceEntry` from `src/lib/types.ts` (lines 102-148). -/
def transformAttendanceEntry (raw : AttendanceEntryRaw) : AttendanceEntry :=
  let isLogged := optTruthy raw.clockIn && optTruthy raw.clockOut &&
    optTruthy raw.workingHours
  let isHoliday := optTruthy raw.holidayType
  let status : AttendanceStatus :=
    if raw.isPending then .pending
    else if isHoliday && isLogged then .holidayWork
    else if isLogged then .logged
    else if raw.status.contains "A" then .absence
    else if raw.status.contains "L" then .late
    else if raw.status.contains "PV" then .paidVacation
    else if raw.status.contains "SH" then .substitutionHoliday
    else if isHoliday then .holiday
    else .unlogged
  { date := raw.date
    dayOfWeek := raw.dayOfWeek
    holidayType := raw.holidayType
    shiftTime := raw.shiftTime
    clockIn := raw.clockIn
    clockOut := raw.clockOut
    workingHours := raw.workingHours
    offShiftWorkingHours := raw.offShiftWorkingHours
    overtime := raw.overtime
    nightShift := raw.nightShift
    breakTime := raw.breakTime
    status := status
    rawStatus := raw.status
    statusTooltip := raw.statusTooltip
    isLogged := isLogged
    isHoliday := isHoliday }

/-- Primary-status derivation as worded by the specification (section 4.3):
pending flag, then (holiday AND fully logged) gives HolidayWork, then fully
logged gives Logged, then raw status codes A, L, PV, SH in order, then
holiday, else Unlogged; "fully logged" means clock-in, clock-out and
working-hours all present. -/
def specPrimaryStatus (raw : AttendanceEntryRaw) : AttendanceStatus :=
  let fullyLogged := optTruthy raw.clockIn && optTruthy raw.clockOut &&
    optTruthy raw.workingHours
  let holidayPresent := optTruthy raw.holidayType
  if raw.isPending then .pending
  else if holidayPresent && fullyLogged then .holidayWork
  else if fullyLogged then .logged
  else if raw.status.contains "A" then .absence
  else if raw.status.contains "L" then .late
  else if raw.status.contains "PV" then .paidVacation
  else if raw.status.contains "SH" then .substitutionHoliday
  else if holidayPresent then .holiday
  else .unlogged

/-! ### Authentication module — cookie handling

Embedding of `parseCookies`, `parseCookieString` and `mergeCookies` from the
authentication module.  `mergeCookies` is variadic in the source; here it
takes the ordered argument list, with `none` modelling a `null` header. -/

/-- Word character of the JS `\w` class: `[A-Za-z0-9_]`. -/
def isWordChar (c : Char) : Bool := c.isAlphanum || c = '_'

/-- The lookahead `(?=\w+=)`: a non-empty maximal run of word characters
followed by `=`. -/
def lookWordEq (l : List Char) : Bool :=
  let run := l.takeWhile isWordChar
  run ≠ [] && (match l.drop run.length with
    | '=' :: _ => true
    | _ => false)

/-- JS `s.split(/,\s*(?=\w+=)/)`: split at each comma that, after optional
whitespace (consumed as part of the separator), is followed by `\w+=`.
`acc` is the current piece, reversed; the fuel argument (any upper bound on
the input length) keeps the recursion structural. -/
def splitCommaCookieAux : Nat → List Char → List Char → List (List Char)
  | _, [], acc => [acc.reverse]
  | 0, l, acc => [acc.reverse ++ l]
  | fuel + 1, c :: cs, acc =>
    if c = ',' ∧ lookWordEq (cs.dropWhile Char.isWhitespace) then
      acc.reverse :: splitCommaCookieAux fuel (cs.dropWhile Char.isWhitespace) []
    else
      splitCommaCookieAux fuel cs (c :: acc)

/-- JS `s.split(/,\s*(?=\w+=)/)` with the fuel initialized. -/
def splitCommaCookie (l : List Char) (acc : List Char) : List (List Char) :=
  splitCommaCookieAux l.length l acc

/-- JS `Array.prototype.join(sep)` for a list of strings. -/
def joinStr (sep : String) : List String → String
  | [] => ""
  | [s] => s
  | s :: rest => s ++ sep ++ joinStr sep rest

/-- `parseCookies` (auth module, lines 69-87): split a `Set-Cookie` header at
cookie boundaries, keep each piece up to its first `;` (the regex match
`/^([^;]+)/`, which fails on an empty or `;`-leading piece), trim, and join
with a separator. -/
def parseCookies (setCookieHeader : Option String) : String :=
  match setCookieHeader with
  | none => ""
  | some h =>
    let pieces := splitCommaCookie h.data []
    let cookies := pieces.filterMap (fun p =>
      let m := p.takeWhile (fun c => c ≠ ';')
      if m = [] then none else some (String.mk (trimChars m)))
    joinStr "; " cookies

/-- `parseCookieString` (auth module, lines 92-99): inputs that contain one
of the markers `path=`, `secure`, `HttpOnly` are treated as `Set-Cookie`
headers and reduced by `parseCookies`; anything else is returned as-is. -/
def parseCookieString (cookieInput : String) : String :=
  if jsIncludes cookieInput "path=" || jsIncludes cookieInput "secure" ||
      jsIncludes cookieInput "HttpOnly" then
    parseCookies (some cookieInput)
  else cookieInput

/-- JS object assignment `obj[k] = v` on an insertion-ordered record:
overwrite the entry of `k` in place when the key exists, else append —
JS object keys are unique, so replacing the first occurrence is exact. -/
def setKey : List (String × String) → String → String → List (String × String)
  | [], k, v => [(k, v)]
  | p :: ps, k, v => if p.1 = k then (k, v) :: ps else p :: setKey ps k v

/-- The name/value pair a piece of a cookie string contributes: JS
`const [name, value] = cookie.split("=")` followed by the truthiness check
`if (name && value)`.  The value is the text between the first and second
`=` (the remainder of a destructured `split`). -/
def cookiePair (piece : String) : Option (String × String) :=
  match splitChar '=' piece.data with
  | n :: v :: _ => if n ≠ [] ∧ v ≠ [] then some (⟨n⟩, ⟨v⟩) else none
  | _ => none

/-- The loop body of `mergeCookies` for one header: a falsy (`null`)
header or empty cookie string contributes nothing; otherwise each `"; "`
piece that destructures into truthy name and value is assigned into the
record. -/
def mergeCookiesStep (m : List (String × String)) (header : Option String) :
    List (String × String) :=
  match header with
  | none => m
  | some hdr =>
    let cookies := parseCookieString hdr
    if cookies = "" then m
    else (splitStr "; " cookies).foldl (fun m c =>
      match cookiePair c with
      | some (n, v) => setKey m n v
      | none => m) m

/-- `mergeCookies` (auth module, lines 104-125): fold the headers left to
right into an insertion-ordered record keyed by cookie name, then render
`name=value` pairs joined by a separator
(`Object.entries(allCookies).map(([n, v]) => ...).join("; ")`). -/
def mergeCookies (cookieHeaders : List (Option String)) : String :=
  let allCookies := cookieHeaders.foldl mergeCookiesStep []
  joinStr "; " (allCookies.map (fun p => p.1 ++ "=" ++ p.2))

/-- All name/value pairs contributed by a header, in order: the pieces of the
(possibly `parseCookies`-reduced) cookie string that pass the destructuring
and truthiness checks of `mergeCookies`. -/
def headerPairs (header : Option String) : List (String × String) :=
  match header with
  | none => []
  | some hdr => (splitStr "; " (parseCookieString hdr)).filterMap cookiePair

/-- The name-to-last-value map described by the specification: an explicit
map reduced left to right over the ordered pair stream. -/
def cookieFoldMap (headers : List (Option String)) : List (String × String) :=
  (headers.flatMap headerPairs).foldl (fun m p => setKey m p.1 p.2) []

/-- Value associated to a name in an insertion-ordered record. -/
def lookupVal : List (String × String) → String → Option String
  | [], _ => none
  | p :: ps, k => if p.1 = k then some p.2 else lookupVal ps k

/-- Last value set for a name in an ordered pair stream. -/
def lastVal (ps : List (String × String)) (k : String) : Option String :=
  lookupVal ps.reverse k

/-! ### Authentication module — session storage

The three LocalStorage keys used by the session code (`SESSION_COOKIE`,
`SESSION_COOKIES`, `SESSION_EXPIRY`) become a `Store` record; `Date.now()`
becomes an explicit `now : Int` (milliseconds).  `login` performs network
I/O, so `ensureValidSession` takes it as an oracle and records in
`loginInvoked` whether it was called — `login` is the only call in
`ensureValidSession` that can perform network traffic (the rest is
LocalStorage access and logging). -/

structure SessionData where
  sid : String
  cookies : String
  expiry : Int
  deriving DecidableEq, Repr

/-- The three persisted session keys; `none` models an absent key. -/
structure Store where
  sessionCookie : Option String := none
  sessionCookies : Option String := none
  sessionExpiry : Option String := none
  deriving DecidableEq, Repr

/-- `clearStoredSession` (auth module, lines 187-191). -/
def clearStoredSession (_st : Store) : Store :=
  { sessionCookie := none, sessionCookies := none, sessionExpiry := none }

/-- `getStoredSession` (auth module, lines 165-182): read the three keys
(an absent or empty value is falsy and yields `null`); parse the expiry
with `parseInt`; a `NaN` or strictly past expiry clears the store and
yields `null`. -/
def getStoredSession (st : Store) (now : Int) : Option SessionData × Store :=
  match st.sessionCookie, st.sessionCookies, st.sessionExpiry with
  | some sid, some cookies, some expiryStr =>
    if sid = "" ∨ cookies = "" ∨ expiryStr = "" then (none, st)
    else
      match jsParseInt expiryStr with
      | none => (none, clearStoredSession st)
      | some expiry =>
        if expiry < now then (none, clearStoredSession st)
        else (some { sid := sid, cookies := cookies, expiry := expiry }, st)
  | _, _, _ => (none, st)

/-- Errors thrown by the session read/validation paths, by throw site. -/
inductive AuthError where
  /-- getSessionCookie / getSessionCookies: no valid session found. -/
  | noValidSession
  /-- ensureValidSession, no stored session, auto-login failed. -/
  | autoLoginFailed
  /-- ensureValidSession, no stored session, auto-relogin not configured:
  the logged-out error. -/
  | loggedOut
  /-- ensureValidSession, session expiring within the buffer, re-login
  failed. -/
  | expiredReloginFailed
  /-- ensureValidSession, session expiring within the buffer, auto-relogin
  not configured: the session-expired error. -/
  | expiredNoRelogin
  deriving DecidableEq, Repr

/-- `getSessionCookie` (auth module, lines 451-457). -/
def getSessionCookie (st : Store) (now : Int) :
    Except AuthError String × Store :=
  match getStoredSession st now with
  | (none, st1) => (.error .noValidSession, st1)
  | (some session, st1) => (.ok session.sid, st1)

/-- `getSessionCookies` (auth module, lines 462-469): the stored cookie
string merged with the two fixed employee cookies. -/
def getSessionCookies (st : Store) (now : Int) :
    Except AuthError String × Store :=
  match getStoredSession st now with
  | (none, st1) => (.error .noValidSession, st1)
  | (some session, st1) =>
    (.ok (mergeCookies [some session.cookies,
      some "employee_language=en; __bd_fedee=1"]), st1)

/-- Raycast extension preferences read by the auth module. -/
structure Preferences where
  email : String
  password : String
  autoReloginOnRefreshFailure : Bool
  deriving DecidableEq, Repr

/-- Truthiness of the auto-relogin guard
`preferences.autoReloginOnRefreshFailure && preferences.email &&
preferences.password`. -/
def autoReloginConfigured (prefs : Preferences) : Bool :=
  prefs.autoReloginOnRefreshFailure && strTruthy prefs.email &&
    strTruthy prefs.password

/-- Result of `ensureValidSession`: the returned identifier or thrown
error, whether `login` was invoked (the only possible network activity),
and the resulting store. -/
structure EnsureOutcome where
  result : Except AuthError String
  loginInvoked : Bool
  store : Store
  deriving Repr

/-- `ensureValidSession` (auth module, lines 474-526).  `loginOracle`
stands for the outcome of `login(email, password)`: `.ok (sid, st)` is a
successful login returning `sid` with resulting store `st`; `.error ()` a
login failure (the store after a failed login attempt is not modelled — no
claim depends on it, and `loginInvoked` is true on every path that uses the
oracle). -/
def ensureValidSession (st : Store) (prefs : Preferences) (now : Int)
    (loginOracle : Except Unit (String × Store)) : EnsureOutcome :=
  match getStoredSession st now with
  | (none, st1) =>
    if autoReloginConfigured prefs then
      match loginOracle with
      | .ok (sid, st2) => { result := .ok sid, loginInvoked := true, store := st2 }
      | .error () =>
        { result := .error .autoLoginFailed, loginInvoked := true, store := st1 }
    else
      { result := .error .loggedOut, loginInvoked := false, store := st1 }
  | (some session, st1) =>
    -- timeUntilExpiry < 5 * 60 * 1000 (five-minute buffer)
    if session.expiry - now < 5 * 60 * 1000 then
      if autoReloginConfigured prefs then
        match loginOracle with
        | .ok (sid, st2) =>
          { result := .ok sid, loginInvoked := true, store := st2 }
        | .error () =>
          { result := .error .expiredReloginFailed, loginInvoked := true,
            store := st1 }
      else
        { result := .error .expiredNoRelogin, loginInvoked := false, store := st1 }
    else
      { result := .ok session.sid, loginInvoked := false, store := st1 }

/-! ### `src/lib/clock-fields.ts` — form field discovery

The DOM library is a collaborator; a parsed modification page is therefore
a `FormDoc` holding the results of the selector calls the code makes:
`querySelectorAll("select"/"input"/"textarea")`, each element's attributes
and `<option>` children, and — since `findLabelForField` is a pure
traversal of the parsed tree — the label text that traversal yields for the
element (`labelText`, `null` when no label is found). -/

inductive ClockFieldType where
  | select
  | text
  | time
  deriving DecidableEq, Repr

structure ClockField where
  name : String
  type : ClockFieldType
  required : Bool
  label : String
  options : Option (List (String × String)) := none
  defaultValue : Option String := none
  deriving DecidableEq, Repr

/-- One element returned by a selector query: its `name`/`type`/`required`
attributes (absent attribute is `none`), its `<option>` children as
(`value` attribute, inner text) pairs, and the result of
`findLabelForField` on it. -/
structure DomElem where
  name : Option String := none
  typeAttr : Option String := none
  requiredAttr : Option String := none
  options : List (Option String × String) := []
  labelText : Option String := none
  deriving DecidableEq, Repr

/-- The parsed modification page: the three selector result lists in
document order. -/
structure FormDoc where
  selects : List DomElem := []
  inputs : List DomElem := []
  textareas : List DomElem := []
  deriving DecidableEq, Repr

/-- `input.hasAttribute("required") || input.getAttribute("required") ===
"required"`. -/
def hasRequired (e : DomElem) : Bool :=
  e.requiredAttr.isSome || e.requiredAttr == some "required"

/-- `parseGroupIdField` (clock-fields.ts, lines 42-73). -/
def parseGroupIdField (e : DomElem) : Option ClockField :=
  if e.name ≠ some "group_id" then none
  else
    let options := e.options.filterMap (fun o =>
      let value := jsOr o.1 ""
      let label := trimJS o.2
      if strTruthy value && strTruthy label then some (value, label) else none)
    if options = [] then none
    else
      some { name := "group_id"
             type := .select
             required := true
             label := jsOr e.labelText "Clock-in/out Spot"
             options := some options
             defaultValue := (options.head?).map (fun o => o.1) }

/-- `parseNoticeField` (clock-fields.ts, lines 78-93).  The source computes
`required || true`, which is always true; written literally. -/
def parseNoticeField (e : DomElem) : Option ClockField :=
  if e.name ≠ some "notice" then none
  else
    some { name := "notice"
           type := .text
           required := hasRequired e || true
           label := jsOr e.labelText "Notes" }

/-- `parseTimeField` (clock-fields.ts, lines 99-132): heuristic for time
inputs; classifies by substring into the canonical names `clockInTime` /
`clockOutTime`. -/
def parseTimeField (e : DomElem) : Option ClockField :=
  match e.name with
  | none => none
  | some name =>
    if ¬(jsIncludes name "time" || jsIncludes name "in" || jsIncludes name "out") then
      none
    else
      let label := e.labelText
      if ¬optTruthy label ||
          ¬(jsIncludes (lowerJS (jsOr label "")) "time" ||
            jsIncludes (lowerJS (jsOr label "")) "clock") then
        none
      else
        let labelStr := jsOr label ""
        let required := hasRequired e
        let isClockIn := jsIncludes (lowerJS name) "in" ||
          jsIncludes (lowerJS labelStr) "in"
        let isClockOut := jsIncludes (lowerJS name) "out" ||
          jsIncludes (lowerJS labelStr) "out"
        let fieldName := if isClockIn then "clockInTime"
          else if isClockOut then "clockOutTime"
          else name
        some { name := fieldName
               type := .time
               required := required || false
               label := if labelStr = "" then fieldName else labelStr }

/-- `parseTextField` (clock-fields.ts, lines 137-163): generic text-input
fall-through; skips hidden inputs and the system fields handled elsewhere. -/
def parseTextField (e : DomElem) : Option ClockField :=
  match e.name with
  | none => none
  | some name =>
    if name = "notice" ∨ name = "token" ∨ name = "client_id" ∨
        name = "employee_id" then none
    else if e.typeAttr = some "hidden" then none
    else
      some { name := name
             type := .text
             required := hasRequired e
             label := jsOr e.labelText name }

/-- The field registry: in this repository exactly `group_id` and `notice`
are registered (clock-fields.ts, lines 351-352). -/
def registryLookup (name : String) : Option (DomElem → Option ClockField) :=
  if name = "group_id" then some parseGroupIdField
  else if name = "notice" then some parseNoticeField
  else none

/-- State of the `parseClockFields` scan: discovered fields in order, and
the set of source element names already processed (`processedNames`). -/
structure ScanState where
  fields : List ClockField := []
  processed : List String := []

/-- Record a discovered field and mark the source name processed. -/
def pushField (st : ScanState) (f : ClockField) (n : String) : ScanState :=
  { fields := st.fields ++ [f], processed := st.processed ++ [n] }

/-- The `<select>` loop body of `parseClockFields` (lines 209-233). -/
def scanSelect (st : ScanState) (e : DomElem) : ScanState :=
  match e.name with
  | none => st
  | some name =>
    if st.processed.contains name then st
    else
      match registryLookup name with
      | some p =>
        match p e with
        | some f => pushField st f name
        | none =>
          match parseGroupIdField e with
          | some f => pushField st f name
          | none => st
      | none =>
        match parseGroupIdField e with
        | some f => pushField st f name
        | none => st

/-- The `<input>` loop body of `parseClockFields` (lines 236-281). -/
def scanInput (st : ScanState) (e : DomElem) : ScanState :=
  match e.name with
  | none => st
  | some name =>
    if st.processed.contains name then st
    else if e.typeAttr = some "hidden" ∨ name = "token" ∨
        name = "client_id" ∨ name = "employee_id" then st
    else
      let fallthrough : ScanState :=
        match parseNoticeField e with
        | some f => pushField st f name
        | none =>
          match parseTimeField e with
          | some f => pushField st f name
          | none =>
            match parseTextField e with
            | some f => pushField st f name
            | none => st
      match registryLookup name with
      | some p =>
        match p e with
        | some f => pushField st f name
        | none => fallthrough
      | none => fallthrough

/-- The `<textarea>` loop body of `parseClockFields` (lines 284-301). -/
def scanTextarea (st : ScanState) (e : DomElem) : ScanState :=
  match e.name with
  | none => st
  | some name =>
    if st.processed.contains name then st
    else
      pushField st
        { name := name
          type := .text
          required := hasRequired e
          label := jsOr e.labelText name } name

/-- The synthetic-fields step of `parseClockFields` (lines 303-326): append
optional `clockInTime` / `clockOutTime` fields when missing. -/
def addSyntheticTimeFields (fields : List ClockField) : List ClockField :=
  let hasClockInTime := fields.any (fun f => f.name = "clockInTime")
  let hasClockOutTime := fields.any (fun f => f.name = "clockOutTime")
  let fields := if hasClockInTime then fields else fields ++
    [{ name := "clockInTime", type := .time, required := false,
       label := "Clock In Time", defaultValue := some "10:00" }]
  if hasClockOutTime then fields else fields ++
    [{ name := "clockOutTime", type := .time, required := false,
       label := "Clock Out Time", defaultValue := some "19:00" }]

/-- `parseClockFields` (clock-fields.ts, lines 202-329). -/
def parseClockFields (doc : FormDoc) : List ClockField :=
  let st : ScanState := {}
  let st := doc.selects.foldl scanSelect st
  let st := doc.inputs.foldl scanInput st
  let st := doc.textareas.foldl scanTextarea st
  addSyntheticTimeFields st.fields

/-! ### `generateFieldSchema` (clock-fields.ts, lines 335-348)

`[...fields].sort((a, b) => a.name.localeCompare(b.name))` is a stable sort
keyed on the name only; `localeCompare` is modelled as the lexicographic
string order, and the stable sort as insertion sort keyed by `≤` on names
(every stable sort of the same keyed sequence yields the same list).  The
serialization is kept at the character-list level so that the reasoning
about concatenations stays elementary; the character lists are exactly the
`.data` of the source strings. -/

/-- The stable-sort key: `a.name.localeCompare(b.name) ≤ 0`. -/
def nameLe (a b : ClockField) : Prop := a.name ≤ b.name

instance : DecidableRel nameLe := fun a b =>
  inferInstanceAs (Decidable (a.name ≤ b.name))

/-- `field.type` serialized: the `.data` of "select" / "text" / "time". -/
def typeChars : ClockFieldType → List Char
  | .select => ['s', 'e', 'l', 'e', 'c', 't']
  | .text => ['t', 'e', 'x', 't']
  | .time => ['t', 'i', 'm', 'e']

/-- `field.required ? "required" : "optional"` serialized. -/
def reqChars : Bool → List Char
  | true => ['r', 'e', 'q', 'u', 'i', 'r', 'e', 'd']
  | false => ['o', 'p', 't', 'i', 'o', 'n', 'a', 'l']

/-- The optional `:options:N` suffix pushed for select fields with an
options list. -/
def optChars (f : ClockField) : List Char :=
  match f.type, f.options with
  | .select, some opts =>
    ':' :: ['o', 'p', 't', 'i', 'o', 'n', 's', ':'] ++ (Nat.repr opts.length).data
  | _, _ => []

/-- One field serialized: `parts.join(":")` for
`[name, type, required|optional]` plus the select options suffix. -/
def entryChars (f : ClockField) : List Char :=
  f.name.data ++ ':' :: (typeChars f.type ++ ':' :: (reqChars f.required ++ optChars f))

/-- `Array.prototype.join(sep)` at the character-list level. -/
def joinSep (sep : List Char) : List (List Char) → List Char
  | [] => []
  | [x] => x
  | x :: xs => x ++ sep ++ joinSep sep xs

/-- `generateFieldSchema` (clock-fields.ts, lines 335-348). -/
def generateFieldSchema (fields : List ClockField) : String :=
  ⟨joinSep ['|'] ((List.insertionSort nameLe fields).map entryChars)⟩

/-- `hasFieldSchemaChanged` (api.ts, lines 418-425). -/
def hasFieldSchemaChanged (detectedFields : List ClockField)
    (storedSchema : Option String) : Bool :=
  match storedSchema with
  | none => true
  | some stored => generateFieldSchema detectedFields ≠ stored

/-! ### `src/lib/api.ts` — clock executor

`clockInOut` (lines 250-393) with its collaborators
`validateClockingSupport` (lines 217-237) and `convertTimeFormat`
(lines 242-244).  Network responses are oracles in a `ClockEnv`; the
HTTP requests actually issued are recorded in order in a trace.  Both
submissions POST the same insert endpoint; the trace distinguishes them by
step.  `getModifyPageData` (lines 143-212) first builds headers (which
validates the session) and then issues one GET; its outcome — including
every parse failure inside it — is the `modifyPage` oracle. -/

structure Spot where
  id : String
  name : String
  deriving DecidableEq, Repr

structure ModifyPageData where
  token : String
  clientId : String
  employeeId : String
  availableSpots : List Spot
  formFields : List ClockField
  deriving DecidableEq, Repr

structure ClockingValidation where
  supported : Bool
  missingFields : List String
  deriving DecidableEq, Repr

/-- `validateClockingSupport` (api.ts, lines 217-237). -/
def validateClockingSupport (d : ModifyPageData) : ClockingValidation :=
  let missingFields : List String :=
    (if ¬strTruthy d.token then ["token"] else []) ++
    (if ¬strTruthy d.clientId then ["client_id"] else []) ++
    (if ¬strTruthy d.employeeId then ["employee_id"] else []) ++
    (if d.availableSpots.length = 0 then ["group_id (no spots available)"] else [])
  { supported := missingFields.length = 0, missingFields := missingFields }

/-- `convertTimeFormat` (api.ts, lines 242-244): `HH:MM` to `HHMM` —
`time.replace(":", "")` removes the first colon. -/
def convertTimeFormat (time : String) : String :=
  match splitChar ':' time.data with
  | a :: b :: rest => ⟨a ++ b⟩ ++ joinStr ":" (rest.map (fun l => ⟨l⟩))
  | _ => time

/-- The two invocation formats of `clockInOut`: a field-value map or the
positional backward-compatibility form. -/
inductive ClockArgs where
  | fieldMap (m : List (String × String))
  | positional (clockInTime : String) (clockOutTime : Option String)
      (spotNameOrId : Option String) (notes : Option String)

/-- JS property access `m.key` on the field map. -/
def mapGet (m : List (String × String)) (k : String) : Option String :=
  (m.find? (fun p => p.1 = k)).map (fun p => p.2)

/-- The normalization prologue of `clockInOut` (api.ts, lines 257-276):
yields (clockInTime, clockOutTimeValue, spotNameOrIdValue, notesValue). -/
def normalizeClockArgs : ClockArgs → String × String × String × String
  | .fieldMap m =>
    (jsOr (mapGet m "clockInTime") "10:00",
     jsOr (mapGet m "clockOutTime") "19:00",
     jsOr (mapGet m "group_id") "",
     jsOr (mapGet m "notice") "")
  | .positional cin cout spot notes =>
    (cin, jsOr cout "19:00", jsOr spot "", jsOr notes "")

/-- JS `s.match(/^\d+$/)` truthiness. -/
def allDigits (s : String) : Bool :=
  s.data ≠ [] && s.data.all isDigitChar

/-- Spot resolution (api.ts, lines 292-310): a numeric value is used
directly; a name is matched case-insensitively by substring in either
direction, first match wins; no value or no match falls back to the first
available spot (`availableSpots[0]`, which validation has shown to exist;
an empty spot list would make the source throw here, modelled by `""`). -/
def resolveSpot (spotNameOrIdValue : String) (d : ModifyPageData) : String :=
  if strTruthy spotNameOrIdValue ∧ ¬allDigits spotNameOrIdValue then
    match d.availableSpots.find? (fun s =>
      jsIncludes (lowerJS s.name) (lowerJS spotNameOrIdValue) ||
      jsIncludes (lowerJS spotNameOrIdValue) (lowerJS s.name)) with
    | some s => s.id
    | none => ((d.availableSpots.head?).map (fun s => s.id)).getD ""
  else if ¬strTruthy spotNameOrIdValue then
    ((d.availableSpots.head?).map (fun s => s.id)).getD ""
  else spotNameOrIdValue

/-- Failures of `clockInOut`, by throw site.  The clock-in and clock-out
steps are distinct constructors: the thrown messages name the step
("Clock in failed: ..." / "Clock out failed: ..."). -/
inductive ClockError where
  /-- getDefaultHeaders / getSessionCookies threw: no valid session. -/
  | sessionUnavailable
  /-- `getModifyPageData` failed (HTTP error, login page, or a missing
  token / client_id / employee_id), with the thrown message. -/
  | modifyPageFailed (msg : String)
  /-- Validation failed: "Clocking not supported. Missing fields: ...". -/
  | notSupported (missingFields : List String)
  /-- "Notes are required for clocking in/out". -/
  | notesRequired
  /-- Clock-in POST returned a non-2xx status. -/
  | clockInHttpFailed (status : Nat)
  /-- Clock-in POST returned JSON with `result !== 1`. -/
  | clockInRejected (result : Int)
  /-- Clock-out POST returned a non-2xx status. -/
  | clockOutHttpFailed (status : Nat)
  /-- Clock-out POST returned JSON with `result !== 1`. -/
  | clockOutRejected (result : Int)
  deriving DecidableEq, Repr

/-- The HTTP requests `clockInOut` can issue, in order of appearance. -/
inductive NetCall where
  /-- The GET of the modification page inside `getModifyPageData`. -/
  | fetchModifyPage
  /-- The clock-in POST to the insert endpoint. -/
  | postClockIn
  /-- The clock-out POST to the insert endpoint. -/
  | postClockOut
  deriving DecidableEq, Repr

/-- `response.ok`: status in the 2xx range. -/
def httpOk (status : Nat) : Bool := 200 ≤ status ∧ status < 300

/-- Network oracle for one `clockInOut` run: whether the session layer can
produce headers, the outcome of `getModifyPageData`, and the status and
JSON `result` of the two POSTs. -/
structure ClockEnv where
  sessionAvailable : Bool := true
  modifyPage : Except String ModifyPageData
  clockInStatus : Nat := 200
  clockInResult : Int := 1
  clockOutStatus : Nat := 200
  clockOutResult : Int := 1

/-- `clockInOut` (api.ts, lines 250-393): returns the thrown error or unit
together with the ordered trace of HTTP requests issued. -/
def clockInOut (args : ClockArgs) (env : ClockEnv) :
    Except ClockError Unit × List NetCall :=
  let (clockInTime, clockOutTimeValue, spotNameOrIdValue, notesValue) :=
    normalizeClockArgs args
  -- Step 1: getModifyPageData — headers (session validation) then the GET
  if ¬env.sessionAvailable then (.error .sessionUnavailable, [])
  else
    match env.modifyPage with
    | .error msg => (.error (.modifyPageFailed msg), [.fetchModifyPage])
    | .ok modifyData =>
      -- Step 2: validate support
      let validation := validateClockingSupport modifyData
      if ¬validation.supported then
        (.error (.notSupported validation.missingFields), [.fetchModifyPage])
      else
        -- Step 3: resolve group_id
        let _groupId := resolveSpot spotNameOrIdValue modifyData
        if ¬strTruthy notesValue then
          (.error .notesRequired, [.fetchModifyPage])
        else
          -- Step 4: clock in (uses convertTimeFormat clockInTime)
          let _timeIn := convertTimeFormat clockInTime
          let traceIn := [NetCall.fetchModifyPage, NetCall.postClockIn]
          if ¬httpOk env.clockInStatus then
            (.error (.clockInHttpFailed env.clockInStatus), traceIn)
          else if env.clockInResult ≠ 1 then
            (.error (.clockInRejected env.clockInResult), traceIn)
          else
            -- Step 5: clock out (uses convertTimeFormat clockOutTimeValue)
            let _timeOut := convertTimeFormat clockOutTimeValue
            let traceOut := traceIn ++ [NetCall.postClockOut]
            if ¬httpOk env.clockOutStatus then
              (.error (.clockOutHttpFailed env.clockOutStatus), traceOut)
            else if env.clockOutResult ≠ 1 then
              (.error (.clockOutRejected env.clockOutResult), traceOut)
            else (.ok (), traceOut)

/-! ### Attendance parser (api.ts, lines 466-640)

A parsed attendance document is the result of `parse(html)` followed by the
selector calls the code makes: `querySelector("tbody")` (`none` when the
document has no tbody), its `querySelectorAll("tr")` rows, and per cell the
inner text, the first anchor, the bold `font` tags and the tooltip node.
The regexes of the row parser are implemented character by character. -/

/-- The first `<a>` of a cell: its text and its first `<font>` child text
(`none` when the anchor has no font tag). -/
structure AttAnchor where
  text : String := ""
  fontText : Option String := none
  deriving DecidableEq, Repr

/-- One `<td>`: inner text, first anchor, texts of
`font[style*="font-weight: bold"]` tags, and the
`[data-toggle="tooltip"]` node with its `title` attribute. -/
structure AttCell where
  text : String := ""
  anchor : Option AttAnchor := none
  boldFontTexts : List String := []
  tooltipNode : Option (Option String) := none
  deriving DecidableEq, Repr

/-- One `<tr>`: its cells and whether `classList` contains
`jbc-table-warning`. -/
structure AttRow where
  cells : List AttCell := []
  hasWarningClass : Bool := false
  deriving DecidableEq, Repr

/-- A parsed attendance page: `querySelector("tbody")` results, `none`
when no tbody element is found. -/
structure AttDoc where
  tbodyRows : Option (List AttRow) := none
  deriving DecidableEq, Repr

/-- Cell access `cells[i]` (guarded in the source by the length check). -/
def cellAt (cells : List AttCell) (i : Nat) : AttCell :=
  (cells.get? i).getD {}

/-- `text.trim() || undefined`. -/
def trimOrNone (s : String) : Option String :=
  let t := trimJS s
  if t = "" then none else some t

/-- Match of `/(\d{2})\/(\d{2})\(([^)]+)\)/` at the head of the list:
capture groups (month digits, day digits, day-of-week text). -/
def dateMatchHere (l : List Char) : Option (List Char × List Char × List Char) :=
  match l with
  | d1 :: d2 :: '/' :: d3 :: d4 :: '(' :: rest =>
    if isDigitChar d1 && isDigitChar d2 && isDigitChar d3 && isDigitChar d4 then
      let inner := rest.takeWhile (fun c => c ≠ ')')
      if inner = [] then none
      else
        match rest.drop inner.length with
        | ')' :: _ => some ([d1, d2], [d3, d4], inner)
        | _ => none
    else none
  | _ => none

/-- First match of the date pattern anywhere in the list (JS `match`
without the global flag). -/
def findDateMatch : List Char → Option (List Char × List Char × List Char)
  | [] => none
  | c :: cs =>
    match dateMatchHere (c :: cs) with
    | some m => some m
    | none => findDateMatch cs

/-- Uppercase A-Z test. -/
def isUpperAZ (c : Char) : Bool := 'A' ≤ c ∧ c ≤ 'Z'

/-- Full-string match of `/^[A-Z]{1,3}$/`. -/
def isShortUpperCode (s : String) : Bool :=
  s.data ≠ [] && s.data.length ≤ 3 && s.data.all isUpperAZ

/-- The trailing word boundary: end of input or a non-`\w` character. -/
def wordBreakAt : List Char → Bool
  | [] => true
  | d :: _ => ¬isWordChar d

/-- All matches of `/\b([A-Z]{1,3})\b/g`: at a word boundary, a maximal
uppercase run of length 1-3 followed by a non-word character or the end
matches; the scan resumes after each match.  `prevIsWord` tracks whether
the previous character is a `\w` character. -/
def upperTokenScanAux (prevIsWord : Bool) : Nat → List Char → List (List Char)
  | _, [] => []
  | 0, _ => []
  | fuel + 1, c :: cs =>
    if ¬prevIsWord ∧ isUpperAZ c then
      let run := c :: cs.takeWhile isUpperAZ
      let rest := cs.drop (run.length - 1)
      if run.length ≤ 3 && wordBreakAt rest then
        run :: upperTokenScanAux true fuel rest
      else
        upperTokenScanAux (isWordChar c) fuel cs
    else
      upperTokenScanAux (isWordChar c) fuel cs

/-- The regex scan with the fuel initialized (the fuel is an upper bound on
the input length; every step consumes at least one character). -/
def upperTokenScan (prevIsWord : Bool) (l : List Char) : List (List Char) :=
  upperTokenScanAux prevIsWord l.length l

/-- The status-cell extraction of `parseAttendanceRow`
(api.ts, lines 544-597). -/
def extractStatus (statusCell : AttCell) : List String :=
  -- bold font tags
  let status := statusCell.boldFontTexts.foldl (fun acc t =>
    let statusText := trimJS t
    if strTruthy statusText then acc ++ [statusText] else acc) []
  -- the anchor, via its font tag or its short-uppercase text
  let status :=
    match statusCell.anchor with
    | none => status
    | some link =>
      match link.fontText with
      | some ft =>
        let linkStatus := trimJS ft
        if strTruthy linkStatus ∧ ¬status.contains linkStatus then
          status ++ [linkStatus]
        else status
      | none =>
        let linkText := trimJS link.text
        if strTruthy linkText ∧ isShortUpperCode linkText ∧
            ¬status.contains linkText then
          status ++ [linkText]
        else status
  -- fallback: regex over the plain cell text
  if status.isEmpty then
    (upperTokenScan false (trimJS statusCell.text).data).foldl (fun acc m =>
      let statusCode := trimJS ⟨m⟩
      if strTruthy statusCode ∧ ¬acc.contains statusCode then
        acc ++ [statusCode]
      else acc) []
  else status

/-- `parseAttendanceRow` (api.ts, lines 500-640).  The
unrecognized-pattern block (lines 599-622) only writes a debug log and has
no observable effect, so it is not modelled. -/
def parseAttendanceRow (row : AttRow) (year month : Nat) :
    Option AttendanceEntryRaw :=
  if row.cells.length < 11 then none
  else
    let isPending := row.hasWarningClass
    let dateCell := cellAt row.cells 0
    match dateCell.anchor with
    | none => none
    | some dateLink =>
      let dateText := trimJS dateLink.text
      match findDateMatch dateText.data with
      | none => none
      | some (_, dayDigits, dowChars) =>
        let day := ((jsParseInt ⟨dayDigits⟩).getD 0).toNat
        let dayOfWeek := trimJS ⟨dowChars⟩
        let date := Nat.repr year ++ "-" ++ pad2 month ++ "-" ++ pad2 day
        let statusCell := cellAt row.cells 10
        let statusTooltip : Option String :=
          match statusCell.tooltipNode with
          | none => none
          | some title => match title with
            | none => none
            | some t => if t = "" then none else some t
        some { date := date
               dayOfWeek := dayOfWeek
               holidayType := trimOrNone (cellAt row.cells 1).text
               shiftTime := trimOrNone (cellAt row.cells 2).text
               clockIn := trimOrNone (cellAt row.cells 3).text
               clockOut := trimOrNone (cellAt row.cells 4).text
               workingHours := trimOrNone (cellAt row.cells 5).text
               offShiftWorkingHours := trimOrNone (cellAt row.cells 6).text
               overtime := trimOrNone (cellAt row.cells 7).text
               nightShift := trimOrNone (cellAt row.cells 8).text
               breakTime := trimOrNone (cellAt row.cells 9).text
               status := extractStatus statusCell
               statusTooltip := statusTooltip
               isPending := isPending }

structure AttendanceResponse where
  entries : List AttendanceEntry
  year : Nat
  month : Nat
  deriving DecidableEq, Repr

/-- `parseAttendanceHtml` (api.ts, lines 471-494): no tbody yields the
empty month; otherwise every parsable row, transformed. -/
def parseAttendanceHtml (doc : AttDoc) (year month : Nat) :
    AttendanceResponse :=
  match doc.tbodyRows with
  | none => { entries := [], year := year, month := month }
  | some rows =>
    let rawEntries := rows.filterMap (fun r => parseAttendanceRow r year month)
    { entries := rawEntries.map transformAttendanceEntry
      year := year
      month := month }

instance : IsTotal ClockField nameLe :=
  ⟨fun a b => le_total a.name b.name⟩

instance : IsTrans ClockField nameLe :=
  ⟨fun _ _ _ h1 h2 => le_trans h1 h2⟩

/-- Decimal digit list of a natural number, most significant first: the
reference function for reasoning about `Nat.repr` (which serializes the
option count in the field schema). -/
def decDigits (n : Nat) : List Char :=
  if _h : n < 10 then [Nat.digitChar n]
  else decDigits (n / 10) ++ [Nat.digitChar (n % 10)]
  termination_by n
  decreasing_by exact Nat.div_lt_self (by omega) (by omega)

/-- Pointwise relation between two field lists that agree everywhere
except that occurrences of `a` on the left may face `b` on the right (the
shape of a list and its one-field modification). -/
def ReplRel (a b : ClockField) (x y : ClockField) : Prop :=
  x = y ∨ (x = a ∧ y = b)

/-- The same pointwise relation on serialized entries. -/
def ReplStr (ea eb : List Char) (s t : List Char) : Prop :=
  s = t ∨ (s = ea ∧ t = eb)

/-! ### Predicates about discovered field names

Used to state the uniqueness property of `parseClockFields`: the scan
guards duplicates by the source element name, while the time heuristic can
rename distinct source names to the same canonical name, so uniqueness can
only be asserted away from the two canonical time names. -/

/-- The two canonical names produced by the time-field heuristic. -/
def canonTimeName (n : String) : Prop :=
  n = "clockInTime" ∨ n = "clockOutTime"

instance (n : String) : Decidable (canonTimeName n) :=
  inferInstanceAs (Decidable (_ ∨ _))

/-- Every discovered field with a non-canonical name has its name in the
processed set. -/
def namesGuarded (st : ScanState) : Prop :=
  ∀ f ∈ st.fields, ¬canonTimeName f.name → f.name ∈ st.processed

/-- Any two fields sharing a name carry one of the canonical time names. -/
def fieldsNameUnique (l : List ClockField) : Prop :=
  List.Pairwise (fun f g => f.name = g.name → canonTimeName f.name) l

/-- The loop invariant of the `parseClockFields` scan. -/
def scanInv (st : ScanState) : Prop :=
  namesGuarded st ∧ fieldsNameUnique st.fields

/-! ## Theorems -/

/-- Claim C1 (amended): `transformAttendanceEntry` derives the primary
status by the fixed precedence (pending; holiday and fully logged:
HolidayWork; fully logged: Logged; codes A, L, PV, SH; holiday; else
Unlogged); in particular a non-pending holiday entry with clock-in,
clock-out and working-hours all present derives HolidayWork regardless of
its raw status codes.  (The pending flag outranks the HolidayWork rule, so
the non-pending proviso is necessary; see the counterexample.) -/
theorem transformAttendanceEntry_status_precedence :
    (∀ raw : AttendanceEntryRaw,
      (transformAttendanceEntry raw).status = specPrimaryStatus raw) ∧
    (∀ raw : AttendanceEntryRaw, raw.isPending = false →
      optTruthy raw.holidayType = true → optTruthy raw.clockIn = true →
      optTruthy raw.clockOut = true → optTruthy raw.workingHours = true →
      (transformAttendanceEntry raw).status = .holidayWork) := by
  constructor
  · intro raw
    rfl
  · intro raw hp hh hin hout hwork
    simp [transformAttendanceEntry, hp, hh, hin, hout, hwork]

/-- Witness for C1 at a concrete holiday row that is fully logged, not
pending, and carries the raw status code A. -/
theorem transformAttendanceEntry_status_precedence_witness :
    (transformAttendanceEntry
      { date := "2025-01-01", dayOfWeek := "Wed",
        holidayType := some "National", clockIn := some "09:00",
        clockOut := some "18:00", workingHours := some "08:00",
        status := ["A"] }).status = .holidayWork :=
  transformAttendanceEntry_status_precedence.2
    { date := "2025-01-01", dayOfWeek := "Wed", holidayType := some "National",
      clockIn := some "09:00", clockOut := some "18:00",
      workingHours := some "08:00", status := ["A"] }
    rfl rfl rfl rfl rfl

/-- Counterexample to C1 as stated: a holiday row with all three time
fields present but the pending flag set derives Pending, not HolidayWork —
the "regardless" in the claim does not extend over the pending flag. -/
theorem transformAttendanceEntry_pending_beats_holidayWork :
    (transformAttendanceEntry
      { date := "2025-01-01", dayOfWeek := "Wed",
        holidayType := some "National", clockIn := some "09:00",
        clockOut := some "18:00", workingHours := some "08:00",
        status := [], isPending := true }).status = .pending ∧
    AttendanceStatus.pending ≠ .holidayWork := by
  exact ⟨rfl, by decide⟩

/-- Claim C2: for every stored session whose parsed expiry is at least the
five-minute buffer in the future, `ensureValidSession` returns the stored
identifier, does not invoke `login` (its only network-capable call), and
leaves the store unchanged — for every login oracle. -/
theorem ensureValidSession_hot_path (st : Store) (prefs : Preferences)
    (now : Int) (loginOracle : Except Unit (String × Store))
    (sid cookies expiryStr : String) (expiry : Int)
    (hsid : st.sessionCookie = some sid) (hsidT : sid ≠ "")
    (hck : st.sessionCookies = some cookies) (hckT : cookies ≠ "")
    (hex : st.sessionExpiry = some expiryStr)
    (hparse : jsParseInt expiryStr = some expiry)
    (hfresh : 5 * 60 * 1000 ≤ expiry - now) :
    ensureValidSession st prefs now loginOracle =
      { result := .ok sid, loginInvoked := false, store := st } := by
  have hexT : expiryStr ≠ "" := by
    intro h
    rw [h] at hparse
    simp [jsParseInt] at hparse
  have hnotpast : ¬expiry < now := by omega
  have hnotsoon : ¬expiry - now < 300000 := by omega
  simp [ensureValidSession, getStoredSession, hsid, hck, hex, hparse,
    hsidT, hckT, hexT, hnotpast, hnotsoon]

/-- Witness for C2 at a concrete store and time. -/
theorem ensureValidSession_hot_path_witness :
    ensureValidSession
      { sessionCookie := some "sid0", sessionCookies := some "a=1",
        sessionExpiry := some "1000000" }
      { email := "", password := "", autoReloginOnRefreshFailure := false }
      0 (.error ()) =
      { result := .ok "sid0", loginInvoked := false,
        store :=
          { sessionCookie := some "sid0", sessionCookies := some "a=1",
            sessionExpiry := some "1000000" } } :=
  ensureValidSession_hot_path _ _ 0 _ "sid0" "a=1" "1000000" 1000000
    rfl (by decide) rfl (by decide) rfl (by decide) (by decide)

/-- Claim C9 (amended): for a stored session whose parsed expiry is less
than five minutes in the future but not already past, with auto-relogin not
configured, `ensureValidSession` fails with the session-expired error and
never invokes `login`.  (When the expiry is already past, `getStoredSession`
purges the session first and the failure is the logged-out error instead —
see the counterexample — still with no login attempt.) -/
theorem ensureValidSession_expiring_no_relogin (st : Store)
    (prefs : Preferences) (now : Int)
    (loginOracle : Except Unit (String × Store))
    (sid cookies expiryStr : String) (expiry : Int)
    (hsid : st.sessionCookie = some sid) (hsidT : sid ≠ "")
    (hck : st.sessionCookies = some cookies) (hckT : cookies ≠ "")
    (hex : st.sessionExpiry = some expiryStr)
    (hparse : jsParseInt expiryStr = some expiry)
    (hpresent : now ≤ expiry) (hsoon : expiry - now < 5 * 60 * 1000)
    (hnoauto : autoReloginConfigured prefs = false) :
    ensureValidSession st prefs now loginOracle =
      { result := .error .expiredNoRelogin, loginInvoked := false,
        store := st } := by
  have hexT : expiryStr ≠ "" := by
    intro h
    rw [h] at hparse
    simp [jsParseInt] at hparse
  have hnotpast : ¬expiry < now := by omega
  have hsoonN : expiry - now < 300000 := by omega
  simp [ensureValidSession, getStoredSession, hsid, hck, hex, hparse,
    hsidT, hckT, hexT, hnotpast, hsoonN, hnoauto]

/-- Witness for C9 (amended) at a concrete store and time. -/
theorem ensureValidSession_expiring_no_relogin_witness :
    ensureValidSession
      { sessionCookie := some "sid0", sessionCookies := some "a=1",
        sessionExpiry := some "100000" }
      { email := "u@x", password := "p", autoReloginOnRefreshFailure := false }
      0 (.error ()) =
      { result := .error .expiredNoRelogin, loginInvoked := false,
        store :=
          { sessionCookie := some "sid0", sessionCookies := some "a=1",
            sessionExpiry := some "100000" } } :=
  ensureValidSession_expiring_no_relogin _ _ 0 _ "sid0" "a=1" "100000" 100000
    rfl (by decide) rfl (by decide) rfl (by decide) (by decide) (by decide)
    (by decide)

/-- Counterexample to C9 as stated: a stored session whose expiry (5 ms)
is already past — hence less than five minutes in the future — with no
auto-relogin credentials yields the logged-out error, not the
session-expired error, because the read purges the session first.  No
login is attempted, and the stored keys are cleared. -/
theorem ensureValidSession_past_expiry_logged_out :
    ensureValidSession
      { sessionCookie := some "sid0", sessionCookies := some "a=1",
        sessionExpiry := some "5" }
      { email := "", password := "", autoReloginOnRefreshFailure := false }
      1000 (.error ()) =
      { result := .error .loggedOut, loginInvoked := false,
        store :=
          { sessionCookie := none, sessionCookies := none,
            sessionExpiry := none } } ∧
    AuthError.loggedOut ≠ .expiredNoRelogin := by
  exact ⟨rfl, by decide⟩

/-- Claim C10: a document in which no tbody element is found parses to the
empty month with the supplied year and month, without failing. -/
theorem parseAttendanceHtml_no_tbody (doc : AttDoc) (year month : Nat)
    (h : doc.tbodyRows = none) :
    parseAttendanceHtml doc year month =
      { entries := [], year := year, month := month } := by
  simp [parseAttendanceHtml, h]

/-- Witness for C10 at a concrete tbody-less document. -/
theorem parseAttendanceHtml_no_tbody_witness :
    parseAttendanceHtml { tbodyRows := none } 2025 3 =
      { entries := [], year := 2025, month := 3 } :=
  parseAttendanceHtml_no_tbody { tbodyRows := none } 2025 3 rfl

/-- Claim C6 (amended): `getStoredSession` — the single read path under
`getSessionCookie`, `getSessionCookies` and `ensureValidSession` — treats
the stored session as absent and purges the stored keys exactly when the
stored expiry fails to parse or is strictly before the current time; it
never returns a session whose expiry is in the past, and consequently
`getSessionCookies` only succeeds on sessions whose expiry is not in the
past.  (The five-minute safety buffer is applied only by
`ensureValidSession` and `isAuthenticated`, which fail without purging; a
session whose expiry is within the buffer but not past is still returned
by the read paths — see the counterexample.) -/
theorem getStoredSession_purge_guard :
    (∀ (st : Store) (now : Int) (s : SessionData) (st1 : Store),
      getStoredSession st now = (some s, st1) → now ≤ s.expiry ∧ st1 = st) ∧
    (∀ (st : Store) (now : Int) (sid cookies expiryStr : String),
      st.sessionCookie = some sid → sid ≠ "" →
      st.sessionCookies = some cookies → cookies ≠ "" →
      st.sessionExpiry = some expiryStr → expiryStr ≠ "" →
      (jsParseInt expiryStr = none ∨
        ∃ e, jsParseInt expiryStr = some e ∧ e < now) →
      getStoredSession st now = (none, clearStoredSession st)) ∧
    (∀ (st : Store) (now : Int) (r : String) (st1 : Store),
      getSessionCookies st now = (.ok r, st1) →
      ∃ s, getStoredSession st now = (some s, st1) ∧ now ≤ s.expiry) := by
  have h1 : ∀ (st : Store) (now : Int) (s : SessionData) (st1 : Store),
      getStoredSession st now = (some s, st1) → now ≤ s.expiry ∧ st1 = st := by
    intro st now s st1 h
    simp only [getStoredSession] at h
    split at h
    · split at h
      · simp at h
      · split at h
        · simp at h
        · split at h
          · simp at h
          · rename_i hlt
            simp only [Prod.mk.injEq, Option.some.injEq] at h
            obtain ⟨hs, hst⟩ := h
            subst hs
            exact ⟨by simpa using Int.not_lt.mp hlt, hst.symm⟩
    · simp at h
  refine ⟨h1, ?_, ?_⟩
  · intro st now sid cookies expiryStr hsid hsidT hck hckT hex hexT hbad
    simp only [getStoredSession, hsid, hck, hex]
    rcases hbad with hnone | ⟨e, hsome, hlt⟩
    · simp [hsidT, hckT, hexT, hnone]
    · simp [hsidT, hckT, hexT, hsome, hlt]
  · intro st now r st1 h
    simp only [getSessionCookies] at h
    rcases hg : getStoredSession st now with ⟨oS, st2⟩
    rw [hg] at h
    cases oS with
    | none => simp at h
    | some s =>
      simp only [Prod.mk.injEq] at h
      obtain ⟨-, hst⟩ := h
      subst hst
      exact ⟨s, rfl, (h1 st now s st2 hg).1⟩

/-- Witness for C6 (amended), purging a concrete store whose expiry (5 ms)
is strictly past. -/
theorem getStoredSession_purge_guard_witness :
    getStoredSession
      { sessionCookie := some "sid0", sessionCookies := some "a=1",
        sessionExpiry := some "5" } 1000 =
      (none, clearStoredSession
        { sessionCookie := some "sid0", sessionCookies := some "a=1",
          sessionExpiry := some "5" }) :=
  getStoredSession_purge_guard.2.1 _ 1000 "sid0" "a=1" "5"
    rfl (by decide) rfl (by decide) rfl (by decide)
    (Or.inr ⟨5, by decide, by decide⟩)

/-- Counterexample to C6 as stated: a stored session whose expiry is one
minute ahead — within the five-minute buffer — is not treated as absent:
`getSessionCookies` returns its cookie data (merged with the two fixed
employee cookies) and the stored keys are not purged. -/
theorem getSessionCookies_returns_within_buffer :
    getSessionCookies
      { sessionCookie := some "sid0", sessionCookies := some "a=1",
        sessionExpiry := some "60000" } 0 =
      (.ok "a=1; employee_language=en; __bd_fedee=1",
        { sessionCookie := some "sid0", sessionCookies := some "a=1",
          sessionExpiry := some "60000" }) ∧
    (60000 : Int) - 0 < 5 * 60 * 1000 := by
  exact ⟨rfl, by decide⟩

/-- Claim C3 (amended): with an empty (or missing) notes value,
`clockInOut` never issues a clock-in or clock-out POST, and — whenever the
preliminary modify-page fetch succeeds and validation passes — it fails
with the notes-required error.  (The claim's "before any network call" does
not hold: the modify-page GET is issued before the notes check — see the
counterexample.) -/
theorem clockInOut_empty_notes_no_post (args : ClockArgs) (env : ClockEnv)
    (hnotes : (normalizeClockArgs args).2.2.2 = "") :
    (NetCall.postClockIn ∉ (clockInOut args env).2 ∧
      NetCall.postClockOut ∉ (clockInOut args env).2) ∧
    ∀ d : ModifyPageData, env.sessionAvailable = true →
      env.modifyPage = .ok d →
      (validateClockingSupport d).supported = true →
      (clockInOut args env).1 = .error .notesRequired := by
  rcases htup : normalizeClockArgs args with ⟨cin, cout, spot, notes⟩
  have hn : notes = "" := by
    have := hnotes
    rw [htup] at this
    exact this
  subst hn
  constructor
  · by_cases hs : env.sessionAvailable
    · rcases hm : env.modifyPage with msg | d
      · simp [clockInOut, htup, hs, hm]
      · by_cases hv : (validateClockingSupport d).supported
        · simp [clockInOut, htup, hs, hm, hv, strTruthy]
        · simp [clockInOut, htup, hs, hm, hv]
    · simp [clockInOut, htup, hs]
  · intro d hsess hmod hv
    simp [clockInOut, htup, hsess, hmod, hv, strTruthy]

/-- Counterexample to C3 as stated: with empty notes and a well-formed
modification page, the run rejects with the notes-required error but the
trace already contains the modify-page GET — an HTTP request issued before
the rejection. -/
theorem clockInOut_empty_notes_after_fetch :
    clockInOut (.positional "10:00" none none none)
      { modifyPage := .ok
          { token := "tok", clientId := "cid", employeeId := "eid",
            availableSpots := [{ id := "1", name := "Office" }],
            formFields := [] } } =
      (.error .notesRequired, [.fetchModifyPage]) ∧
    ([NetCall.fetchModifyPage] : List NetCall) ≠ [] := by
  exact ⟨rfl, by decide⟩

/-- Claim C4: when the clock-in POST returns 2xx but its JSON result
discriminator differs from 1, `clockInOut` fails with the submission error
naming the clock-in step (carrying that discriminator), and the clock-out
POST is never issued. -/
theorem clockInOut_clock_in_rejected (args : ClockArgs) (env : ClockEnv)
    (d : ModifyPageData) (hs : env.sessionAvailable = true)
    (hm : env.modifyPage = .ok d)
    (hv : (validateClockingSupport d).supported = true)
    (hnotes : (normalizeClockArgs args).2.2.2 ≠ "")
    (hok : httpOk env.clockInStatus = true)
    (hres : env.clockInResult ≠ 1) :
    (clockInOut args env).1 = .error (.clockInRejected env.clockInResult) ∧
    NetCall.postClockOut ∉ (clockInOut args env).2 := by
  rcases htup : normalizeClockArgs args with ⟨cin, cout, spot, notes⟩
  have hn : notes ≠ "" := by
    have := hnotes
    rw [htup] at this
    exact this
  constructor
  · simp [clockInOut, htup, hs, hm, hv, strTruthy, hn, hok, hres]
  · simp [clockInOut, htup, hs, hm, hv, strTruthy, hn, hok, hres]

/-- Witness for C4 at a concrete run whose clock-in POST answers
`{result: 0}` with status 200. -/
theorem clockInOut_clock_in_rejected_witness :
    (clockInOut (.positional "10:00" (some "19:00") (some "1") (some "wfh"))
      { modifyPage := .ok
          { token := "tok", clientId := "cid", employeeId := "eid",
            availableSpots := [{ id := "1", name := "Office" }],
            formFields := [] }
        clockInResult := 0 }).1 = .error (.clockInRejected 0) ∧
    NetCall.postClockOut ∉
      (clockInOut (.positional "10:00" (some "19:00") (some "1") (some "wfh"))
        { modifyPage := .ok
            { token := "tok", clientId := "cid", employeeId := "eid",
              availableSpots := [{ id := "1", name := "Office" }],
              formFields := [] }
          clockInResult := 0 }).2 :=
  clockInOut_clock_in_rejected _ _
    { token := "tok", clientId := "cid", employeeId := "eid",
      availableSpots := [{ id := "1", name := "Office" }], formFields := [] }
    rfl rfl (by decide) (by decide) (by decide) (by decide)

/-- Witness for C3 (amended) at a concrete empty-notes invocation against
a well-formed modification page. -/
theorem clockInOut_empty_notes_no_post_witness :
    (clockInOut (.positional "10:00" none none none)
      { modifyPage := .ok
          { token := "tok", clientId := "cid", employeeId := "eid",
            availableSpots := [{ id := "1", name := "Office" }],
            formFields := [] } }).1 = .error .notesRequired :=
  (clockInOut_empty_notes_no_post (.positional "10:00" none none none)
      { modifyPage := .ok
          { token := "tok", clientId := "cid", employeeId := "eid",
            availableSpots := [{ id := "1", name := "Office" }],
            formFields := [] } } rfl).2
    { token := "tok", clientId := "cid", employeeId := "eid",
      availableSpots := [{ id := "1", name := "Office" }], formFields := [] }
    rfl rfl (by decide)

/-- Helper: a fold with an option-skipping body equals the fold over the
`filterMap`-extracted pairs. -/
theorem foldl_cookiePair_filterMap (l : List String)
    (m : List (String × String)) :
    l.foldl (fun m c =>
      match cookiePair c with
      | some (n, v) => setKey m n v
      | none => m) m
    = (l.filterMap cookiePair).foldl (fun m p => setKey m p.1 p.2) m := by
  induction l generalizing m with
  | nil => rfl
  | cons c cs ih =>
    cases h : cookiePair c with
    | none => simp [h, ih]
    | some p =>
      cases p with
      | mk n v => simp [h, ih]

/-- Helper: one `mergeCookies` step assigns exactly the header's extracted
pairs, in order. -/
theorem mergeCookiesStep_eq_headerPairs (m : List (String × String))
    (header : Option String) :
    mergeCookiesStep m header =
      (headerPairs header).foldl (fun m p => setKey m p.1 p.2) m := by
  cases header with
  | none => rfl
  | some hdr =>
    by_cases hc : parseCookieString hdr = ""
    · have hemp : headerPairs (some hdr) = [] := by
        simp only [headerPairs, hc]
        rfl
      simp [mergeCookiesStep, hc, hemp]
    · simp only [mergeCookiesStep, hc, if_neg, headerPairs]
      rw [foldl_cookiePair_filterMap]
      simp [hc]

/-- Helper: the whole `mergeCookies` fold is the fold of the concatenated
pair stream. -/
theorem mergeCookies_fold_eq (headers : List (Option String))
    (m : List (String × String)) :
    headers.foldl mergeCookiesStep m =
      (headers.flatMap headerPairs).foldl (fun m p => setKey m p.1 p.2) m := by
  induction headers generalizing m with
  | nil => rfl
  | cons h t ih =>
    simp only [List.foldl_cons, List.flatMap_cons, List.foldl_append,
      mergeCookiesStep_eq_headerPairs, ih]

/-- Helper: looking a name up after an assignment. -/
theorem lookupVal_setKey (m : List (String × String)) (k v q : String) :
    lookupVal (setKey m k v) q = if q = k then some v else lookupVal m q := by
  induction m with
  | nil =>
    by_cases hq : q = k
    · subst hq
      simp [setKey, lookupVal]
    · have hkq : ¬(k = q) := fun h => hq h.symm
      simp [setKey, lookupVal, hkq, hq]
  | cons p ps ih =>
    by_cases hp : p.1 = k
    · rw [setKey, if_pos hp]
      by_cases hq : q = k
      · subst hq
        simp [lookupVal]
      · have hkq : ¬(k = q) := fun h => hq h.symm
        have hpq : ¬(p.1 = q) := by rw [hp]; exact hkq
        simp [lookupVal, hkq, hq, hpq]
    · rw [setKey, if_neg hp]
      by_cases hpq : p.1 = q
      · have hq : ¬(q = k) := fun h => hp (by rw [hpq, h])
        simp [lookupVal, hpq, hq]
      · simp [lookupVal, hpq, ih]

/-- Helper: the last value in a pair stream extended on the right. -/
theorem lastVal_append_single (ps : List (String × String))
    (p : String × String) (q : String) :
    lastVal (ps ++ [p]) q = if q = p.1 then some p.2 else lastVal ps q := by
  by_cases hq : q = p.1
  · subst hq
    simp [lastVal, lookupVal]
  · have hqp : ¬(p.1 = q) := fun h => hq h.symm
    simp [lastVal, lookupVal, hq, hqp]

/-- Helper: the fold of a pair stream realizes last-value-wins lookup. -/
theorem lookupVal_foldl_setKey (ps : List (String × String)) (q : String) :
    lookupVal (ps.foldl (fun m p => setKey m p.1 p.2) []) q = lastVal ps q := by
  induction ps using List.reverseRecOn with
  | nil => rfl
  | append_singleton ps p ih =>
    rw [List.foldl_append, List.foldl_cons, List.foldl_nil, lookupVal_setKey,
      lastVal_append_single, ih]

/-- Claim C7 (amended): `mergeCookies` renders the name-to-last-value map
obtained by reducing, left to right, the ordered stream of name/value
pairs its own extraction derives from each input — an input containing one
of the markers `path=` / `secure` / `HttpOnly` is reduced as a `Set-Cookie`
header (only each comma-separated cookie's leading `name=value` part is
kept, discarding attributes); any other input is treated as an
already-merged cookie string whose every `"; "`-separated `name=value`
piece enters the map; a pair's value is the text between the first and
second `=`.  For every name, the rendered map holds exactly the value of
the last pair in the stream carrying that name.  (Attributes of inputs
without the three markers are not discarded — see the counterexample.) -/
theorem mergeCookies_last_value_wins :
    (∀ headers : List (Option String),
      mergeCookies headers =
        joinStr "; " ((cookieFoldMap headers).map (fun p => p.1 ++ "=" ++ p.2))) ∧
    (∀ (headers : List (Option String)) (name : String),
      lookupVal (cookieFoldMap headers) name =
        lastVal (headers.flatMap headerPairs) name) := by
  constructor
  · intro headers
    unfold mergeCookies cookieFoldMap
    rw [mergeCookies_fold_eq]
  · intro headers name
    unfold cookieFoldMap
    exact lookupVal_foldl_setKey _ name

/-- Counterexample to C7 as stated: an input carrying the non-cookie
attribute `Max-Age` but none of the three header markers is kept verbatim —
the attribute ends up in the merged cookie string as if it were a cookie,
instead of being discarded. -/
theorem mergeCookies_keeps_unmarked_attributes :
    mergeCookies [some "sid=abc; Max-Age=3600"] = "sid=abc; Max-Age=3600" ∧
    ("sid=abc; Max-Age=3600" : String) ≠ "sid=abc" := by
  exact ⟨rfl, by decide⟩

/-- Helper: a successful `parseGroupIdField` names the field `group_id`
and only fires on an element named `group_id`. -/
theorem parseGroupIdField_name (e : DomElem) (f : ClockField)
    (h : parseGroupIdField e = some f) :
    f.name = "group_id" ∧ e.name = some "group_id" := by
  unfold parseGroupIdField at h
  split at h
  · cases h
  · rename_i hne
    have he : e.name = some "group_id" := not_not.mp hne
    dsimp only at h
    split at h
    · cases h
    · injection h with h
      exact ⟨by rw [← h], he⟩

/-- Helper: a successful `parseNoticeField` names the field `notice` and
only fires on an element named `notice`. -/
theorem parseNoticeField_name (e : DomElem) (f : ClockField)
    (h : parseNoticeField e = some f) :
    f.name = "notice" ∧ e.name = some "notice" := by
  unfold parseNoticeField at h
  split at h
  · cases h
  · rename_i hne
    have he : e.name = some "notice" := not_not.mp hne
    injection h with h
    exact ⟨by rw [← h], he⟩

/-- Helper: a successful `parseTimeField` either keeps the element's name
or produces one of the canonical time names. -/
theorem parseTimeField_name (e : DomElem) (f : ClockField) (n : String)
    (hn : e.name = some n) (h : parseTimeField e = some f) :
    f.name = n ∨ canonTimeName f.name := by
  unfold parseTimeField at h
  rw [hn] at h
  dsimp only at h
  split at h
  · cases h
  · split at h
    · cases h
    · injection h with h
      rw [← h]
      dsimp only
      split
      · exact Or.inr (Or.inl rfl)
      · split
        · exact Or.inr (Or.inr rfl)
        · exact Or.inl rfl

/-- Helper: a successful `parseTextField` keeps the element's name. -/
theorem parseTextField_name (e : DomElem) (f : ClockField) (n : String)
    (hn : e.name = some n) (h : parseTextField e = some f) :
    f.name = n := by
  unfold parseTextField at h
  rw [hn] at h
  dsimp only at h
  split at h
  · cases h
  · split at h
    · cases h
    · injection h with h
      rw [← h]

/-- Helper: the registry holds exactly the `group_id` and `notice`
parsers. -/
theorem registryLookup_cases (n : String) (p : DomElem → Option ClockField)
    (h : registryLookup n = some p) :
    (n = "group_id" ∧ p = parseGroupIdField) ∨
      (n = "notice" ∧ p = parseNoticeField) := by
  unfold registryLookup at h
  split at h
  · rename_i hg
    injection h with h
    exact Or.inl ⟨hg, h.symm⟩
  · split at h
    · rename_i hn
      injection h with h
      exact Or.inr ⟨hn, h.symm⟩
    · cases h

/-- Helper: pushing a field whose name is the processed source name — or a
canonical time name — preserves the scan invariant, provided the source
name is new. -/
theorem pushField_inv (st : ScanState) (f : ClockField) (n : String)
    (hf : f.name = n ∨ canonTimeName f.name)
    (hn : n ∉ st.processed) (h : scanInv st) :
    scanInv (pushField st f n) := by
  obtain ⟨hg, hu⟩ := h
  constructor
  · intro g hgmem hgc
    simp only [pushField, List.mem_append, List.mem_singleton] at hgmem ⊢
    rcases hgmem with hgmem | rfl
    · exact Or.inl (hg g hgmem hgc)
    · rcases hf with hf | hf
      · exact Or.inr hf
      · exact absurd hf hgc
  · show List.Pairwise _ (st.fields ++ [f])
    rw [List.pairwise_append]
    refine ⟨hu, List.pairwise_singleton _ _, ?_⟩
    intro g hgmem f2 hf2
    simp only [List.mem_singleton] at hf2
    subst hf2
    intro heq
    by_cases hgc : canonTimeName g.name
    · exact hgc
    · rcases hf with hf | hf
      · exact absurd (hg g hgmem hgc) (by rw [heq, hf]; exact hn)
      · rw [heq]
        exact hf

/-- Helper: `contains` on the processed list agrees with membership. -/
theorem processed_contains_iff (l : List String) (n : String) :
    l.contains n = true ↔ n ∈ l := by
  induction l with
  | nil => simp
  | cons a t ih =>
    simp only [List.contains_cons, Bool.or_eq_true, beq_iff_eq, List.mem_cons]
    rw [ih]

/-- Helper: the select loop preserves the scan invariant. -/
theorem scanSelect_inv (st : ScanState) (e : DomElem) (h : scanInv st) :
    scanInv (scanSelect st e) := by
  unfold scanSelect
  rcases he : e.name with _ | n
  · exact h
  · dsimp only
    by_cases hp : st.processed.contains n = true
    · rw [if_pos hp]
      exact h
    · rw [if_neg hp]
      have hmem : n ∉ st.processed := fun hm =>
        hp ((processed_contains_iff st.processed n).mpr hm)
      have hgroup : ∀ f : ClockField, parseGroupIdField e = some f →
          scanInv (pushField st f n) := by
        intro f hpg
        obtain ⟨hfname, hen⟩ := parseGroupIdField_name e f hpg
        rw [he] at hen
        injection hen with hen
        exact pushField_inv st f n (Or.inl (by rw [hfname, hen])) hmem h
      have hnotice : ∀ f : ClockField, parseNoticeField e = some f →
          scanInv (pushField st f n) := by
        intro f hpn
        obtain ⟨hfname, hen⟩ := parseNoticeField_name e f hpn
        rw [he] at hen
        injection hen with hen
        exact pushField_inv st f n (Or.inl (by rw [hfname, hen])) hmem h
      rcases hre : registryLookup n with _ | p
      · dsimp only
        rcases hpg : parseGroupIdField e with _ | f
        · exact h
        · exact hgroup f hpg
      · rcases registryLookup_cases n p hre with ⟨hn1, hp1⟩ | ⟨hn1, hp1⟩
        · subst hp1
          dsimp only
          rcases hpg : parseGroupIdField e with _ | f
          · exact h
          · exact hgroup f hpg
        · subst hp1
          dsimp only
          rcases hpn : parseNoticeField e with _ | f
          · dsimp only
            rcases hpg : parseGroupIdField e with _ | f2
            · exact h
            · exact hgroup f2 hpg
          · exact hnotice f hpn

/-- Helper: the input loop preserves the scan invariant. -/
theorem scanInput_inv (st : ScanState) (e : DomElem) (h : scanInv st) :
    scanInv (scanInput st e) := by
  unfold scanInput
  rcases he : e.name with _ | n
  · exact h
  · dsimp only
    by_cases hp : st.processed.contains n = true
    · rw [if_pos hp]
      exact h
    · rw [if_neg hp]
      have hmem : n ∉ st.processed := fun hm =>
        hp ((processed_contains_iff st.processed n).mpr hm)
      by_cases hsys : e.typeAttr = some "hidden" ∨ n = "token" ∨
          n = "client_id" ∨ n = "employee_id"
      · rw [if_pos hsys]
        exact h
      · rw [if_neg hsys]
        have hgroup : ∀ f : ClockField, parseGroupIdField e = some f →
            scanInv (pushField st f n) := by
          intro f hpg
          obtain ⟨hfname, hen⟩ := parseGroupIdField_name e f hpg
          rw [he] at hen
          injection hen with hen
          exact pushField_inv st f n (Or.inl (by rw [hfname, hen])) hmem h
        have hnotice : ∀ f : ClockField, parseNoticeField e = some f →
            scanInv (pushField st f n) := by
          intro f hpn
          obtain ⟨hfname, hen⟩ := parseNoticeField_name e f hpn
          rw [he] at hen
          injection hen with hen
          exact pushField_inv st f n (Or.inl (by rw [hfname, hen])) hmem h
        have htime : ∀ f : ClockField, parseTimeField e = some f →
            scanInv (pushField st f n) := fun f hpt =>
          pushField_inv st f n (parseTimeField_name e f n he hpt) hmem h
        have htext : ∀ f : ClockField, parseTextField e = some f →
            scanInv (pushField st f n) := fun f hpx =>
          pushField_inv st f n (Or.inl (parseTextField_name e f n he hpx)) hmem h
        have hfall : scanInv
            (match parseNoticeField e with
            | some f => pushField st f n
            | none =>
              match parseTimeField e with
              | some f => pushField st f n
              | none =>
                match parseTextField e with
                | some f => pushField st f n
                | none => st) := by
          rcases hpn : parseNoticeField e with _ | f
          · rcases hpt : parseTimeField e with _ | f
            · rcases hpx : parseTextField e with _ | f
              · exact h
              · exact htext f hpx
            · exact htime f hpt
          · exact hnotice f hpn
        rcases hre : registryLookup n with _ | p
        · dsimp only
          exact hfall
        · rcases registryLookup_cases n p hre with ⟨hn1, hp1⟩ | ⟨hn1, hp1⟩
          · subst hp1
            dsimp only
            rcases hpg : parseGroupIdField e with _ | f
            · exact hfall
            · exact hgroup f hpg
          · subst hp1
            dsimp only
            rcases hpn : parseNoticeField e with _ | f
            · dsimp only
              rcases hpt : parseTimeField e with _ | f
              · rcases hpx : parseTextField e with _ | f
                · exact h
                · exact htext f hpx
              · exact htime f hpt
            · exact hnotice f hpn

/-- Helper: the textarea loop preserves the scan invariant. -/
theorem scanTextarea_inv (st : ScanState) (e : DomElem) (h : scanInv st) :
    scanInv (scanTextarea st e) := by
  unfold scanTextarea
  rcases he : e.name with _ | n
  · exact h
  · dsimp only
    by_cases hp : st.processed.contains n = true
    · rw [if_pos hp]
      exact h
    · rw [if_neg hp]
      exact pushField_inv st _ n (Or.inl rfl)
        (fun hm => hp ((processed_contains_iff st.processed n).mpr hm)) h

/-- Helper: folding an invariant-preserving loop body preserves the
invariant. -/
theorem foldl_scanInv (f : ScanState → DomElem → ScanState)
    (hf : ∀ st e, scanInv st → scanInv (f st e)) (l : List DomElem) :
    ∀ st : ScanState, scanInv st → scanInv (l.foldl f st) := by
  induction l with
  | nil => intro st h; exact h
  | cons e t ih => intro st h; exact ih _ (hf st e h)

/-- Helper: appending a field with a canonical time name preserves
pairwise-uniqueness-away-from-canonical. -/
theorem fieldsNameUnique_append_canon (l : List ClockField) (f : ClockField)
    (hf : canonTimeName f.name) (h : fieldsNameUnique l) :
    fieldsNameUnique (l ++ [f]) := by
  rw [fieldsNameUnique, List.pairwise_append]
  refine ⟨h, List.pairwise_singleton _ _, ?_⟩
  intro g hgmem f2 hf2
  simp only [List.mem_singleton] at hf2
  subst hf2
  intro heq
  rw [heq]
  exact hf

/-- Helper: the synthetic-fields step preserves
pairwise-uniqueness-away-from-canonical. -/
theorem addSyntheticTimeFields_unique (l : List ClockField)
    (h : fieldsNameUnique l) :
    fieldsNameUnique (addSyntheticTimeFields l) := by
  unfold addSyntheticTimeFields
  dsimp only
  split
  · split
    · exact h
    · exact fieldsNameUnique_append_canon l _ (Or.inl rfl) h
  · refine fieldsNameUnique_append_canon _ _ (Or.inr rfl) ?_
    split
    · exact h
    · exact fieldsNameUnique_append_canon l _ (Or.inl rfl) h

/-- Claim C5 (amended): in the collection returned by `parseClockFields`,
any two fields sharing a name carry one of the canonical time-heuristic
names `clockInTime` / `clockOutTime`; names are pairwise distinct away
from those two.  (Duplicate-handling is keyed on the source element names,
and the time heuristic can map two distinct source names to the same
canonical name, so full uniqueness fails — see the counterexample.) -/
theorem parseClockFields_names_unique (doc : FormDoc) :
    List.Pairwise (fun f g => f.name = g.name → canonTimeName f.name)
      (parseClockFields doc) := by
  have h0 : scanInv {} :=
    ⟨fun f hf _ => absurd hf (List.not_mem_nil f), List.Pairwise.nil⟩
  have h1 := foldl_scanInv scanSelect scanSelect_inv doc.selects {} h0
  have h2 := foldl_scanInv scanInput scanInput_inv doc.inputs _ h1
  have h3 := foldl_scanInv scanTextarea scanTextarea_inv doc.textareas _ h2
  exact addSyntheticTimeFields_unique _ h3.2

/-- Counterexample to C5 as stated: two text inputs named `checkin_at` and
`begin_time`, each labelled as a clock-in time, are both canonicalized to
`clockInTime` by the time-field heuristic — the returned collection repeats
that name, so the names are not pairwise distinct. -/
theorem parseClockFields_duplicate_canonical_name :
    ((parseClockFields
      { inputs := [
          { name := some "checkin_at", labelText := some "Clock In" },
          { name := some "begin_time", labelText := some "Time In" }] }).map
        (fun f => f.name) =
      ["clockInTime", "clockInTime", "clockOutTime"]) ∧
    ¬((parseClockFields
      { inputs := [
          { name := some "checkin_at", labelText := some "Clock In" },
          { name := some "begin_time", labelText := some "Time In" }] }).map
        (fun f => f.name)).Nodup := by
  exact ⟨rfl, by decide⟩

/-- Helper: value of a digit list extended by one digit. -/
theorem digitsVal_append_single (l : List Char) (c : Char) :
    digitsVal (l ++ [c]) = 10 * digitsVal l + digitVal c := by
  simp [digitsVal, List.foldl_append]

/-- Helper: `digitVal` inverts `Nat.digitChar` on decimal digits. -/
theorem digitVal_digitChar (k : Nat) (h : k < 10) :
    digitVal (Nat.digitChar k) = k := by
  interval_cases k <;> rfl

/-- Helper: `decDigits` represents its argument. -/
theorem digitsVal_decDigits (n : Nat) : digitsVal (decDigits n) = n := by
  induction n using Nat.strong_induction_on with
  | _ n ih =>
    rw [decDigits]
    split
    · rename_i h
      simpa [digitsVal] using digitVal_digitChar n h
    · rename_i h
      rw [digitsVal_append_single,
        ih (n / 10) (Nat.div_lt_self (by omega) (by omega)),
        digitVal_digitChar (n % 10) (Nat.mod_lt n (by omega))]
      omega

/-- Helper: `Nat.toDigitsCore` with enough fuel computes `decDigits`. -/
theorem toDigitsCore_eq_decDigits :
    ∀ (fuel n : Nat) (ds : List Char), n < fuel →
      Nat.toDigitsCore 10 fuel n ds = decDigits n ++ ds := by
  intro fuel
  induction fuel with
  | zero =>
    intro n ds h
    omega
  | succ f ih =>
    intro n ds h
    show (if n / 10 = 0 then Nat.digitChar (n % 10) :: ds
      else Nat.toDigitsCore 10 f (n / 10) (Nat.digitChar (n % 10) :: ds)) = _
    by_cases h0 : n / 10 = 0
    · have hn : n < 10 := by omega
      rw [if_pos h0, decDigits, dif_pos hn, Nat.mod_eq_of_lt hn]
      rfl
    · have hn : ¬n < 10 := by omega
      rw [if_neg h0, ih (n / 10) _ (by omega)]
      conv_rhs => rw [decDigits, dif_neg hn]
      simp [List.append_assoc]

/-- Helper: `Nat.repr` is injective. -/
theorem natRepr_injective (n m : Nat) (h : Nat.repr n = Nat.repr m) : n = m := by
  have hd : Nat.toDigits 10 n = Nat.toDigits 10 m := by
    have h2 := congrArg String.data h
    simpa [Nat.repr, List.asString] using h2
  have h3 : decDigits n ++ ([] : List Char) = decDigits m ++ [] := by
    rw [← toDigitsCore_eq_decDigits (n + 1) n [] (Nat.lt_succ_self n),
      ← toDigitsCore_eq_decDigits (m + 1) m [] (Nat.lt_succ_self m)]
    exact hd
  simp only [List.append_nil] at h3
  rw [← digitsVal_decDigits n, ← digitsVal_decDigits m, h3]

/-- Helper: on lists with pairwise-distinct names, all permutations sort
(stably, by name) to the same list. -/
theorem insertionSort_eq_of_perm (l l' : List ClockField) (hperm : l.Perm l')
    (hnodup : l.Pairwise (fun f g => f.name ≠ g.name)) :
    List.insertionSort nameLe l = List.insertionSort nameLe l' := by
  have hperm1 : (List.insertionSort nameLe l).Perm l := List.perm_insertionSort _ _
  have hperm2 : (List.insertionSort nameLe l').Perm l' := List.perm_insertionSort _ _
  have hnodup' : l'.Pairwise (fun f g => f.name ≠ g.name) :=
    (hperm.pairwise_iff (fun h he => h he.symm)).mp hnodup
  have hn1 : (List.insertionSort nameLe l).Pairwise (fun f g => f.name ≠ g.name) :=
    (hperm1.pairwise_iff (fun h he => h he.symm)).mpr hnodup
  have hn2 : (List.insertionSort nameLe l').Pairwise (fun f g => f.name ≠ g.name) :=
    (hperm2.pairwise_iff (fun h he => h he.symm)).mpr hnodup'
  have hs1 : (List.insertionSort nameLe l).Sorted nameLe :=
    List.sorted_insertionSort nameLe l
  have hs2 : (List.insertionSort nameLe l').Sorted nameLe :=
    List.sorted_insertionSort nameLe l'
  have hr1 : (List.insertionSort nameLe l).Pairwise
      (fun f g => nameLe f g ∧ (f.name = g.name → f = g)) :=
    (hs1.and hn1).imp (fun h => ⟨h.1, fun he => absurd he h.2⟩)
  have hr2 : (List.insertionSort nameLe l').Pairwise
      (fun f g => nameLe f g ∧ (f.name = g.name → f = g)) :=
    (hs2.and hn2).imp (fun h => ⟨h.1, fun he => absurd he h.2⟩)
  exact @List.eq_of_perm_of_sorted ClockField
    (fun f g => nameLe f g ∧ (f.name = g.name → f = g))
    ⟨fun a b h1 h2 => h1.2 (le_antisymm h1.1 h2.1)⟩ _ _
    (hperm1.trans (hperm.trans hperm2.symm)) hr1 hr2

/-- Helper: `ReplRel`-related fields share their name when the replaced
pair does. -/
theorem ReplRel.name_eq (a b : ClockField) (hab : a.name = b.name)
    {x y : ClockField} (h : ReplRel a b x y) : x.name = y.name := by
  rcases h with rfl | ⟨rfl, rfl⟩
  · rfl
  · exact hab

/-- Helper: `orderedInsert` preserves the pointwise replacement relation
(all comparison keys agree). -/
theorem forall2_orderedInsert (a b : ClockField) (hab : a.name = b.name)
    (x y : ClockField) (hxy : ReplRel a b x y) :
    ∀ {m m' : List ClockField}, List.Forall₂ (ReplRel a b) m m' →
      List.Forall₂ (ReplRel a b)
        (List.orderedInsert nameLe x m) (List.orderedInsert nameLe y m') := by
  intro m m' hm
  induction hm with
  | nil => exact List.Forall₂.cons hxy List.Forall₂.nil
  | cons huv htail ih =>
    rename_i u v us vs
    have hxn : x.name = y.name := ReplRel.name_eq a b hab hxy
    have hun : u.name = v.name := ReplRel.name_eq a b hab huv
    by_cases hle : nameLe x u
    · have hle2 : nameLe y v := by
        show y.name ≤ v.name
        rw [← hxn, ← hun]
        exact hle
      rw [List.orderedInsert, if_pos hle, List.orderedInsert, if_pos hle2]
      exact List.Forall₂.cons hxy (List.Forall₂.cons huv htail)
    · have hle2 : ¬nameLe y v := fun hc => hle (by
        show x.name ≤ u.name
        rw [hxn, hun]
        exact hc)
      rw [List.orderedInsert, if_neg hle, List.orderedInsert, if_neg hle2]
      exact List.Forall₂.cons huv ih

/-- Helper: `insertionSort` preserves the pointwise replacement relation. -/
theorem forall2_insertionSort (a b : ClockField) (hab : a.name = b.name) :
    ∀ {l l' : List ClockField}, List.Forall₂ (ReplRel a b) l l' →
      List.Forall₂ (ReplRel a b)
        (List.insertionSort nameLe l) (List.insertionSort nameLe l') := by
  intro l l' h
  induction h with
  | nil => exact List.Forall₂.nil
  | cons hxy _ ih =>
    simp only [List.insertionSort]
    exact forall2_orderedInsert a b hab _ _ hxy ih

/-- Helper: a list and its one-position modification are pointwise
related. -/
theorem forall2_repl (a b : ClockField) (pre post : List ClockField) :
    List.Forall₂ (ReplRel a b) (pre ++ a :: post) (pre ++ b :: post) := by
  induction pre with
  | nil =>
    exact List.Forall₂.cons (Or.inr ⟨rfl, rfl⟩)
      (List.forall₂_same.mpr (fun x _ => Or.inl rfl))
  | cons p ps ih => exact List.Forall₂.cons (Or.inl rfl) ih

/-- Helper: sorting a list and its one-field modification yields different
lists (the modified field occurs a different number of times). -/
theorem insertionSort_ne_of_modified (a b : ClockField) (hne : a ≠ b)
    (pre post : List ClockField) :
    List.insertionSort nameLe (pre ++ a :: post) ≠
      List.insertionSort nameLe (pre ++ b :: post) := by
  intro h
  have hc := congrArg (List.count a) h
  rw [(List.perm_insertionSort nameLe _).count_eq,
    (List.perm_insertionSort nameLe _).count_eq] at hc
  simp only [List.count_append, List.count_cons] at hc
  simp [hne, Ne.symm hne] at hc

/-- Helper: mapping serialization over pointwise-related lists gives
pointwise-related entry strings. -/
theorem forall2_map_entryChars (a b : ClockField) :
    ∀ {l l' : List ClockField}, List.Forall₂ (ReplRel a b) l l' →
      List.Forall₂ (ReplStr (entryChars a) (entryChars b))
        (l.map entryChars) (l'.map entryChars) := by
  intro l l' h
  induction h with
  | nil => exact List.Forall₂.nil
  | cons hxy _ ih =>
    refine List.Forall₂.cons ?_ ih
    rcases hxy with rfl | ⟨rfl, rfl⟩
    · exact Or.inl rfl
    · exact Or.inr ⟨rfl, rfl⟩

/-- Helper: serialization keeps distinct pointwise-related lists
distinct when the two replaced entries serialize differently. -/
theorem map_entryChars_ne (a b : ClockField)
    (hentry : entryChars a ≠ entryChars b) :
    ∀ {l l' : List ClockField}, List.Forall₂ (ReplRel a b) l l' → l ≠ l' →
      l.map entryChars ≠ l'.map entryChars := by
  intro l l' h
  induction h with
  | nil => intro hne2; exact absurd rfl hne2
  | cons hxy htail ih =>
    rename_i x y xs ys
    intro hne2 hmap
    simp only [List.map_cons, List.cons.injEq] at hmap
    rcases hxy with rfl | ⟨rfl, rfl⟩
    · exact ih (fun hx => hne2 (by rw [hx])) hmap.2
    · exact hentry hmap.1

/-- Helper: joining distinct pointwise-related entry lists with a
separator keeps them distinct when the replaced entries have equal
length. -/
theorem joinSep_ne_of_len_eq (sep ea eb : List Char)
    (hlen : ea.length = eb.length) (hne : ea ≠ eb) :
    ∀ {xs ys : List (List Char)}, List.Forall₂ (ReplStr ea eb) xs ys →
      xs ≠ ys → joinSep sep xs ≠ joinSep sep ys := by
  intro xs ys h
  induction h with
  | nil => intro hne2; exact absurd rfl hne2
  | cons hst htail ih =>
    rename_i s t ss ts
    intro hne2 hj
    cases htail with
    | nil =>
      rcases hst with rfl | ⟨rfl, rfl⟩
      · exact hne2 rfl
      · exact hne hj
    | cons hst2 htail2 =>
      rename_i s2 t2 ss2 ts2
      rw [show joinSep sep (s :: s2 :: ss2) =
            (s ++ sep) ++ joinSep sep (s2 :: ss2) from rfl,
          show joinSep sep (t :: t2 :: ts2) =
            (t ++ sep) ++ joinSep sep (t2 :: ts2) from rfl] at hj
      rcases hst with rfl | ⟨rfl, rfl⟩
      · exact ih (fun hx => hne2 (by rw [hx])) (List.append_cancel_left hj)
      · rw [List.append_assoc, List.append_assoc] at hj
        exact hne (List.append_inj hj hlen).1

/-- Helper: length bookkeeping for the join of pointwise-related entry
lists: the two joins differ by the replaced-entry length gap, scaled by
the number of replaced positions (at least one when the lists differ). -/
theorem joinSep_len_balance (sep ea eb : List Char) :
    ∀ {xs ys : List (List Char)}, List.Forall₂ (ReplStr ea eb) xs ys →
      ∃ k : Nat, (joinSep sep ys).length + k * ea.length =
        (joinSep sep xs).length + k * eb.length ∧ (xs ≠ ys → 1 ≤ k) := by
  intro xs ys h
  induction h with
  | nil => exact ⟨0, by simp, fun hne => absurd rfl hne⟩
  | cons hst htail ih =>
    rename_i s t ss ts
    obtain ⟨k, hk, himp⟩ := ih
    cases htail with
    | nil =>
      rcases hst with rfl | ⟨hs, ht2⟩
      · exact ⟨0, by simp, fun hne => absurd rfl hne⟩
      · refine ⟨1, ?_, fun _ => le_refl 1⟩
        have hjs : joinSep sep [s] = s := rfl
        have hjt : joinSep sep [t] = t := rfl
        rw [hjs, hjt, hs, ht2]
        omega
    | cons hst2 htail2 =>
      rename_i s2 t2 ss2 ts2
      have hxs : joinSep sep (s :: s2 :: ss2) =
          (s ++ sep) ++ joinSep sep (s2 :: ss2) := rfl
      have hys : joinSep sep (t :: t2 :: ts2) =
          (t ++ sep) ++ joinSep sep (t2 :: ts2) := rfl
      rcases hst with rfl | ⟨hs, ht2⟩
      · refine ⟨k, ?_, ?_⟩
        · rw [hxs, hys]
          simp only [List.length_append]
          omega
        · intro hne
          exact himp (fun hx => hne (by rw [hx]))
      · refine ⟨k + 1, ?_, fun _ => by omega⟩
        rw [hxs, hys]
        simp only [List.length_append]
        have e1 : (k + 1) * ea.length = k * ea.length + ea.length := by ring
        have e2 : (k + 1) * eb.length = k * eb.length + eb.length := by ring
        rw [e1, e2, hs, ht2]
        omega

/-- Helper: joining distinct pointwise-related entry lists with a
separator keeps them distinct. -/
theorem joinSep_ne (sep ea eb : List Char) (hne : ea ≠ eb)
    {xs ys : List (List Char)} (h : List.Forall₂ (ReplStr ea eb) xs ys)
    (hxy : xs ≠ ys) : joinSep sep xs ≠ joinSep sep ys := by
  by_cases hlen : ea.length = eb.length
  · exact joinSep_ne_of_len_eq sep ea eb hlen hne h hxy
  · intro hj
    obtain ⟨k, hk, himp⟩ := joinSep_len_balance sep ea eb h
    have hk1 := himp hxy
    rw [hj] at hk
    have hmul : k * ea.length = k * eb.length := by omega
    exact hlen (Nat.eq_of_mul_eq_mul_left (by omega) hmul)

/-- Helper: modifying one field so that its serialized entry changes (with
the name kept) changes the schema fingerprint. -/
theorem generateFieldSchema_modified_ne (pre post : List ClockField)
    (a b : ClockField) (hab : a.name = b.name)
    (hentry : entryChars a ≠ entryChars b) :
    generateFieldSchema (pre ++ a :: post) ≠
      generateFieldSchema (pre ++ b :: post) := by
  have hne : a ≠ b := fun h => hentry (by rw [h])
  have hS := forall2_repl a b pre post
  have hsortS := forall2_insertionSort a b hab hS
  have hsortne := insertionSort_ne_of_modified a b hne pre post
  have hmapS := forall2_map_entryChars a b hsortS
  have hmapne := map_entryChars_ne a b hentry hsortS hsortne
  have hjoin := joinSep_ne ['|'] (entryChars a) (entryChars b) hentry hmapS hmapne
  intro h
  exact hjoin (congrArg String.data h)

/-- Helper: flipping the required flag changes the serialized entry. -/
theorem entryChars_ne_required (f : ClockField) :
    entryChars f ≠ entryChars { f with required := !f.required } := by
  intro h
  have hopt : optChars { f with required := !f.required } = optChars f := rfl
  simp only [entryChars, hopt] at h
  have h1 := List.append_cancel_left h
  injection h1 with _ h2
  have h3 := List.append_cancel_left h2
  injection h3 with _ h4
  have h5 := List.append_cancel_right h4
  cases hr : f.required <;> rw [hr] at h5 <;> exact absurd h5 (by decide)

/-- Helper: changing the field type changes the serialized entry. -/
theorem entryChars_ne_type (f : ClockField) (t : ClockFieldType)
    (ht : t ≠ f.type) :
    entryChars f ≠ entryChars { f with type := t } := by
  intro h
  simp only [entryChars] at h
  have h1 := List.append_cancel_left h
  injection h1 with _ h2
  cases hft : f.type <;> cases htt : t <;> rw [hft, htt] at h2 <;>
    first
      | exact ht (htt.trans hft.symm)
      | (simp only [typeChars, List.cons_append] at h2
         injection h2 with hc h2b
         first
           | exact absurd hc (by decide)
           | (injection h2b with hc2 _
              exact absurd hc2 (by decide)))

/-- Helper: changing the number of options of a select field changes the
serialized entry. -/
theorem entryChars_ne_options (f : ClockField) (o opts : List (String × String))
    (htype : f.type = ClockFieldType.select) (hopt : f.options = some o)
    (hlen : opts.length ≠ o.length) :
    entryChars f ≠ entryChars { f with options := some opts } := by
  intro h
  simp only [entryChars] at h
  have h1 := List.append_cancel_left h
  injection h1 with _ h2
  have h3 := List.append_cancel_left h2
  injection h3 with _ h4
  have h5 := List.append_cancel_left h4
  simp only [optChars, htype, hopt] at h5
  injection h5 with _ h6
  have h7 := List.append_cancel_left h6
  have h8 : Nat.repr o.length = Nat.repr opts.length := String.ext h7
  exact hlen (natRepr_injective o.length opts.length h8).symm

/-- Claim C8 (amended): `generateFieldSchema` is permutation-invariant on
every field list whose names are pairwise distinct — the collection
invariant of ClockField — and is sensitive to a single field's required
flag, type, or select option count at any position of any list.  (On lists
with duplicate names — which `parseClockFields` can produce — the stable
sort makes the fingerprint depend on the input order; see the
counterexample.) -/
theorem generateFieldSchema_props :
    (∀ l l' : List ClockField, l.Perm l' →
      l.Pairwise (fun f g => f.name ≠ g.name) →
      generateFieldSchema l = generateFieldSchema l') ∧
    (∀ (pre post : List ClockField) (f : ClockField),
      generateFieldSchema (pre ++ f :: post) ≠
        generateFieldSchema (pre ++ { f with required := !f.required } :: post)) ∧
    (∀ (pre post : List ClockField) (f : ClockField) (t : ClockFieldType),
      t ≠ f.type →
      generateFieldSchema (pre ++ f :: post) ≠
        generateFieldSchema (pre ++ { f with type := t } :: post)) ∧
    (∀ (pre post : List ClockField) (f : ClockField)
        (o opts : List (String × String)),
      f.type = ClockFieldType.select → f.options = some o →
      opts.length ≠ o.length →
      generateFieldSchema (pre ++ f :: post) ≠
        generateFieldSchema (pre ++ { f with options := some opts } :: post)) := by
  refine ⟨?_, ?_, ?_, ?_⟩
  · intro l l' hperm hnodup
    unfold generateFieldSchema
    rw [insertionSort_eq_of_perm l l' hperm hnodup]
  · intro pre post f
    exact generateFieldSchema_modified_ne pre post f _ rfl
      (entryChars_ne_required f)
  · intro pre post f t ht
    exact generateFieldSchema_modified_ne pre post f _ rfl
      (entryChars_ne_type f t ht)
  · intro pre post f o opts htype hopt hlen
    exact generateFieldSchema_modified_ne pre post f _ rfl
      (entryChars_ne_options f o opts htype hopt hlen)

/-- Witness for C8 (amended) on concrete data: a two-field list with
distinct names fingerprints identically under a swap, and flipping the
first field's required flag changes the fingerprint. -/
theorem generateFieldSchema_props_witness :
    generateFieldSchema
      [{ name := "group_id", type := ClockFieldType.select, required := true,
         label := "Spot", options := some [("1", "Office")] },
       { name := "notice", type := ClockFieldType.text, required := true,
         label := "Notes" }] =
    generateFieldSchema
      [{ name := "notice", type := ClockFieldType.text, required := true,
         label := "Notes" },
       { name := "group_id", type := ClockFieldType.select, required := true,
         label := "Spot", options := some [("1", "Office")] }] ∧
    generateFieldSchema
      [({ name := "notice", type := ClockFieldType.text, required := true,
          label := "Notes" } : ClockField)] ≠
    generateFieldSchema
      [({ name := "notice", type := ClockFieldType.text, required := !true,
          label := "Notes" } : ClockField)] := by
  constructor
  · exact generateFieldSchema_props.1 _ _ (List.Perm.swap _ _ _)
      (by decide)
  · exact generateFieldSchema_props.2.1 [] []
      { name := "notice", type := ClockFieldType.text, required := true,
        label := "Notes" }

/-- Counterexample to C8 as stated: two fields sharing the name `a` (the
collection-uniqueness the claim relies on can itself fail, see C5) are a
permutation of their swap, yet the stable sort preserves their relative
order, so the two orders fingerprint differently — `generateFieldSchema`
is not order-independent on every list. -/
theorem generateFieldSchema_order_dependent_on_duplicates :
    ([{ name := "a", type := ClockFieldType.text, required := true,
        label := "a" },
      { name := "a", type := ClockFieldType.time, required := false,
        label := "a" }] : List ClockField).Perm
      [{ name := "a", type := ClockFieldType.time, required := false,
         label := "a" },
       { name := "a", type := ClockFieldType.text, required := true,
         label := "a" }] ∧
    generateFieldSchema
      [{ name := "a", type := ClockFieldType.text, required := true,
         label := "a" },
       { name := "a", type := ClockFieldType.time, required := false,
         label := "a" }] ≠
    generateFieldSchema
      [{ name := "a", type := ClockFieldType.time, required := false,
         label := "a" },
       { name := "a", type := ClockFieldType.text, required := true,
         label := "a" }] := by
  constructor
  · exact List.Perm.swap _ _ _
  · have e1 : List.insertionSort nameLe
        [({ name := "a", type := ClockFieldType.text, required := true,
            label := "a" } : ClockField),
         { name := "a", type := ClockFieldType.time, required := false,
           label := "a" }] =
        [({ name := "a", type := ClockFieldType.text, required := true,
            label := "a" } : ClockField),
         { name := "a", type := ClockFieldType.time, required := false,
           label := "a" }] := by
      simp only [List.insertionSort, List.orderedInsert_nil]
      exact List.orderedInsert_of_le nameLe []
        (le_refl ("a" : String))
    have e2 : List.insertionSort nameLe
        [({ name := "a", type := ClockFieldType.time, required := false,
            label := "a" } : ClockField),
         { name := "a", type := ClockFieldType.text, required := true,
           label := "a" }] =
        [({ name := "a", type := ClockFieldType.time, required := false,
            label := "a" } : ClockField),
         { name := "a", type := ClockFieldType.text, required := true,
           label := "a" }] := by
      simp only [List.insertionSort, List.orderedInsert_nil]
      exact List.orderedInsert_of_le nameLe []
        (le_refl ("a" : String))
    unfold generateFieldSchema
    rw [e1, e2]
    decide

end Jobcan
